import Mathlib

/-!
Formal verification of the `hynek-jina/inheritance` wallet.

This file shallowly embeds the parts of the repository that the verified
claims are about:

* the SLIP-39 single-share codec (`src/utils/slip39-full.ts`):
  RS1024 checksum, share metadata encoding, base-1024 value encoding and
  the 4-round Feistel cipher (PBKDF2 is kept abstract: every theorem is
  parameterised over the PBKDF2 function, assuming only that it produces
  byte lists of the requested length);
* the wallet service (`src/services/wallet.ts`): inheritance spending
  conditions, account state, balance update, activation, coin selection
  in `sendBitcoin`, and `createInheritanceAccount`;
* the spending-conditions validation in the account-creation form
  (`src/components/InheritanceModal.tsx`).

Machine integers are modelled as `Nat` (all bit operations in the source
act on non-negative 32-bit-safe values), byte strings as `List Nat` with
elements `< 256`, JS `BigInt` as `Nat`, and mnemonic strings as the list
of their whitespace-separated words (the TypeScript joins the word list
with single spaces and re-splits on whitespace, a bijection on lists of
non-empty whitespace-free words such as the SLIP-39 vocabulary).
-/

namespace Inheritance

/-! ### SLIP-39 wordlist (src/utils/slip39-full.ts, `SLIP39_WORDLIST`) -/

def SLIP39_WORDLIST : List String := [
  "academic", "acid", "acne", "acquire", "acrobat", "activity", "actress", "adapt",
  "adequate", "adjust", "admit", "adorn", "adult", "advance", "advocate", "afraid",
  "again", "agency", "agree", "aide", "aircraft", "airline", "airport", "ajar",
  "alarm", "album", "alcohol", "alien", "alive", "alpha", "already", "alto",
  "aluminum", "always", "amazing", "ambition", "amount", "amuse", "analysis", "anatomy",
  "ancestor", "ancient", "angel", "angry", "animal", "answer", "antenna", "anxiety",
  "apart", "aquatic", "arcade", "arena", "argue", "armed", "artist", "artwork",
  "aspect", "auction", "august", "aunt", "average", "aviation", "avoid", "award",
  "away", "axis", "axle", "beam", "beard", "beaver", "become", "bedroom",
  "behavior", "being", "believe", "belong", "benefit", "best", "beyond", "bike",
  "biology", "birthday", "bishop", "black", "blanket", "blessing", "blimp", "blind",
  "blue", "body", "bolt", "boring", "born", "both", "boundary", "bracelet",
  "branch", "brave", "breathe", "briefing", "broken", "brother", "browser", "bucket",
  "budget", "building", "bulb", "bulge", "bumpy", "bundle", "burden", "burning",
  "busy", "buyer", "cage", "calcium", "camera", "campus", "canyon", "capacity",
  "capital", "capture", "carbon", "cards", "careful", "cargo", "carpet", "carve",
  "category", "cause", "ceiling", "center", "ceramic", "champion", "change", "charity",
  "check", "chemical", "chest", "chew", "chubby", "cinema", "civil", "class",
  "clay", "cleanup", "client", "climate", "clinic", "clock", "clogs", "closet",
  "clothes", "club", "cluster", "coal", "coastal", "coding", "column", "company",
  "corner", "costume", "counter", "course", "cover", "cowboy", "cradle", "craft",
  "crazy", "credit", "cricket", "criminal", "crisis", "critical", "crowd", "crucial",
  "crunch", "crush", "crystal", "cubic", "cultural", "curious", "curly", "custody",
  "cylinder", "daisy", "damage", "dance", "darkness", "database", "daughter", "deadline",
  "deal", "debris", "debut", "decent", "decision", "declare", "decorate", "decrease",
  "deliver", "demand", "density", "deny", "depart", "depend", "depict", "deploy",
  "describe", "desert", "desire", "desktop", "destroy", "detailed", "detect", "device",
  "devote", "diagnose", "dictate", "diet", "dilemma", "diminish", "dining", "diploma",
  "disaster", "discuss", "disease", "dish", "dismiss", "display", "distance", "dive",
  "divorce", "document", "domain", "domestic", "dominant", "dough", "downtown", "dragon",
  "dramatic", "dream", "dress", "drift", "drink", "drove", "drug", "dryer",
  "duckling", "duke", "duration", "dwarf", "dynamic", "early", "earth", "easel",
  "easy", "echo", "eclipse", "ecology", "edge", "editor", "educate", "either",
  "elbow", "elder", "election", "elegant", "element", "elephant", "elevator", "elite",
  "else", "email", "emerald", "emission", "emperor", "emphasis", "employer", "empty",
  "ending", "endless", "endorse", "enemy", "energy", "enforce", "engage", "enjoy",
  "enlarge", "entrance", "envelope", "envy", "epidemic", "episode", "equation", "equip",
  "eraser", "erode", "escape", "estate", "estimate", "evaluate", "evening", "evidence",
  "evil", "evoke", "exact", "example", "exceed", "exchange", "exclude", "excuse",
  "execute", "exercise", "exhaust", "exotic", "expand", "expect", "explain", "express",
  "extend", "extra", "eyebrow", "facility", "fact", "failure", "faint", "fake",
  "false", "family", "famous", "fancy", "fangs", "fantasy", "fatal", "fatigue",
  "favorite", "fawn", "fiber", "fiction", "filter", "finance", "findings", "finger",
  "firefly", "firm", "fiscal", "fishing", "fitness", "flame", "flash", "flavor",
  "flea", "flexible", "flip", "float", "floral", "fluff", "focus", "forbid",
  "force", "forecast", "forget", "formal", "fortune", "forward", "founder", "fraction",
  "fragment", "frequent", "freshman", "friar", "fridge", "friendly", "frost", "froth",
  "frozen", "fumes", "funding", "furl", "fused", "galaxy", "game", "garbage",
  "garden", "garlic", "gasoline", "gather", "general", "genius", "genre", "genuine",
  "geology", "gesture", "glad", "glance", "glasses", "glen", "glimpse", "goat",
  "golden", "graduate", "grant", "grasp", "gravity", "gray", "greatest", "grief",
  "grill", "grin", "grocery", "gross", "group", "grownup", "grumpy", "guard",
  "guest", "guilt", "guitar", "gums", "hairy", "hamster", "hand", "hanger",
  "harvest", "have", "havoc", "hawk", "hazard", "headset", "health", "hearing",
  "heat", "helpful", "herald", "herd", "hesitate", "hobo", "holiday", "holy",
  "home", "hormone", "hospital", "hour", "huge", "human", "humidity", "hunting",
  "husband", "hush", "husky", "hybrid", "idea", "identify", "idle", "image",
  "impact", "imply", "improve", "impulse", "include", "income", "increase", "index",
  "indicate", "industry", "infant", "inform", "inherit", "injury", "inmate", "insect",
  "inside", "install", "intend", "intimate", "invasion", "involve", "iris", "island",
  "isolate", "item", "ivory", "jacket", "jerky", "jewelry", "join", "judicial",
  "juice", "jump", "junction", "junior", "junk", "jury", "justice", "kernel",
  "keyboard", "kidney", "kind", "kitchen", "knife", "knit", "laden", "ladle",
  "ladybug", "lair", "lamp", "language", "large", "laser", "laundry", "lawsuit",
  "leader", "leaf", "learn", "leaves", "lecture", "legal", "legend", "legs",
  "lend", "length", "level", "liberty", "library", "license", "lift", "likely",
  "lilac", "lily", "lips", "liquid", "listen", "literary", "living", "lizard",
  "loan", "lobe", "location", "losing", "loud", "loyalty", "luck", "lunar",
  "lunch", "lungs", "luxury", "lying", "lyrics", "machine", "magazine", "maiden",
  "mailman", "main", "makeup", "making", "mama", "manager", "mandate", "mansion",
  "manual", "marathon", "march", "market", "marvel", "mason", "material", "math",
  "maximum", "mayor", "meaning", "medal", "medical", "member", "memory", "mental",
  "merchant", "merit", "method", "metric", "midst", "mild", "military", "mineral",
  "minister", "miracle", "mixed", "mixture", "mobile", "modern", "modify", "moisture",
  "moment", "morning", "mortgage", "mother", "mountain", "mouse", "move", "much",
  "mule", "multiple", "muscle", "museum", "music", "mustang", "nail", "national",
  "necklace", "negative", "nervous", "network", "news", "nuclear", "numb", "numerous",
  "nylon", "oasis", "obesity", "object", "observe", "obtain", "ocean", "often",
  "olympic", "omit", "oral", "orange", "orbit", "order", "ordinary", "organize",
  "ounce", "oven", "overall", "owner", "paces", "pacific", "package", "paid",
  "painting", "pajamas", "pancake", "pants", "papa", "paper", "parcel", "parking",
  "party", "patent", "patrol", "payment", "payroll", "peaceful", "peanut", "peasant",
  "pecan", "penalty", "pencil", "percent", "perfect", "permit", "petition", "phantom",
  "pharmacy", "photo", "phrase", "physics", "pickup", "picture", "piece", "pile",
  "pink", "pipeline", "pistol", "pitch", "plains", "plan", "plastic", "platform",
  "playoff", "pleasure", "plot", "plunge", "practice", "prayer", "preach", "predator",
  "pregnant", "premium", "prepare", "presence", "prevent", "priest", "primary", "priority",
  "prisoner", "privacy", "prize", "problem", "process", "profile", "program", "promise",
  "prospect", "provide", "prune", "public", "pulse", "pumps", "punish", "puny",
  "pupal", "purchase", "purple", "python", "quantity", "quarter", "quick", "quiet",
  "race", "racism", "radar", "railroad", "rainbow", "raisin", "random", "ranked",
  "rapids", "raspy", "reaction", "realize", "rebound", "rebuild", "recall", "receiver",
  "recover", "regret", "regular", "reject", "relate", "remember", "remind", "remove",
  "render", "repair", "repeat", "replace", "require", "rescue", "research", "resident",
  "response", "result", "retailer", "retreat", "reunion", "revenue", "review", "reward",
  "rhyme", "rhythm", "rich", "rival", "river", "robin", "rocky", "romantic",
  "romp", "roster", "round", "royal", "ruin", "ruler", "rumor", "sack",
  "safari", "salary", "salon", "salt", "satisfy", "satoshi", "saver", "says",
  "scandal", "scared", "scatter", "scene", "scholar", "science", "scout", "scramble",
  "screw", "script", "scroll", "seafood", "season", "secret", "security", "segment",
  "senior", "shadow", "shaft", "shame", "shaped", "sharp", "shelter", "sheriff",
  "short", "should", "shrimp", "sidewalk", "silent", "silver", "similar", "simple",
  "single", "sister", "skin", "skunk", "slap", "slavery", "sled", "slice",
  "slim", "slow", "slush", "smart", "smear", "smell", "smirk", "smith",
  "smoking", "smug", "snake", "snapshot", "sniff", "society", "software", "soldier",
  "solution", "soul", "source", "space", "spark", "speak", "species", "spelling",
  "spend", "spew", "spider", "spill", "spine", "spirit", "spit", "spray",
  "sprinkle", "square", "squeeze", "stadium", "staff", "standard", "starting", "station",
  "stay", "steady", "step", "stick", "stilt", "story", "strategy", "strike",
  "style", "subject", "submit", "sugar", "suitable", "sunlight", "superior", "surface",
  "surprise", "survive", "sweater", "swimming", "swing", "switch", "symbolic", "sympathy",
  "syndrome", "system", "tackle", "tactics", "tadpole", "talent", "task", "taste",
  "taught", "taxi", "teacher", "teammate", "teaspoon", "temple", "tenant", "tendency",
  "tension", "terminal", "testify", "texture", "thank", "that", "theater", "theory",
  "therapy", "thorn", "threaten", "thumb", "thunder", "ticket", "tidy", "timber",
  "timely", "ting", "tofu", "together", "tolerate", "total", "toxic", "tracks",
  "traffic", "training", "transfer", "trash", "traveler", "treat", "trend", "trial",
  "tricycle", "trip", "triumph", "trouble", "true", "trust", "twice", "twin",
  "type", "typical", "ugly", "ultimate", "umbrella", "uncover", "undergo", "unfair",
  "unfold", "unhappy", "union", "universe", "unkind", "unknown", "unusual", "unwrap",
  "upgrade", "upstairs", "username", "usher", "usual", "valid", "valuable", "vampire",
  "vanish", "various", "vegan", "velvet", "venture", "verdict", "verify", "very",
  "veteran", "vexed", "victim", "video", "view", "vintage", "violence", "viral",
  "visitor", "visual", "vitamins", "vocal", "voice", "volume", "voter", "voting",
  "walnut", "warmth", "warn", "watch", "wavy", "wealthy", "weapon", "webcam",
  "welcome", "welfare", "western", "width", "wildlife", "window", "wine", "wireless",
  "wisdom", "withdraw", "wits", "wolf", "woman", "work", "worthy", "wrap",
  "wrist", "writing", "wrote", "year", "yelp", "yield", "yoga", "zero"]

/-- `WORD_TO_INDEX.get`: the source builds a `Map` from each wordlist entry
to its index (`SLIP39_WORDLIST.forEach((word, index) => set(word, index))`).
Since the wordlist entries are pairwise distinct (proved below from their
strict alphabetical ordering), the map lookup is exactly `List.indexOf`. -/
def wordToIndex (w : String) : Option Nat :=
  let i := SLIP39_WORDLIST.indexOf w
  if i < SLIP39_WORDLIST.length then some i else none

/-! ### RS1024 checksum (src/utils/slip39-full.ts lines 142-182) -/

def RS1024_GEN : List Nat :=
  [0xE0E040, 0x1C1C080, 0x3838100, 0x7070200, 0xE0E0009,
   0x1C0C2412, 0x38086C24, 0x3090FC48, 0x21B1F890, 0x3F3F120]

/-- One iteration of the `for (const v of values)` loop of `rs1024Polymod`:
`b = chk >> 20; chk = ((chk & 0xFFFFF) << 10) ^ v;` followed by the ten
conditional XORs of `RS1024_GEN[i]` for the set bits `i` of `b`. -/
def rs1024Step (chk v : Nat) : Nat :=
  (List.range 10).foldl
    (fun c i => c ^^^ (if ((chk >>> 20) >>> i) &&& 1 = 1 then RS1024_GEN.getD i 0 else 0))
    (((chk &&& 0xFFFFF) <<< 10) ^^^ v)

def rs1024Polymod (values : List Nat) : Nat :=
  values.foldl rs1024Step 1

/-- `customization.split('').map(c => c.charCodeAt(0))` (all customization
strings are ASCII, where `charCodeAt` agrees with `Char.toNat`). -/
def customizationValues (s : String) : List Nat :=
  s.data.map Char.toNat

def rs1024CreateChecksum (customization : String) (data : List Nat) : List Nat :=
  let polymod := rs1024Polymod (customizationValues customization ++ data ++ [0, 0, 0]) ^^^ 1
  [(polymod >>> 20) &&& 0x3FF, (polymod >>> 10) &&& 0x3FF, polymod &&& 0x3FF]

def rs1024VerifyChecksum (customization : String) (data : List Nat) : Bool :=
  rs1024Polymod (customizationValues customization ++ data) == 1

/-- The feedback part of `rs1024Step`: the XOR of `RS1024_GEN[i]` over the
set bits `i < 10` of `b = chk >> 20`. -/
def genFeedback (b : Nat) : Nat :=
  (List.range 10).foldl
    (fun c i => c ^^^ (if (b >>> i) &&& 1 = 1 then RS1024_GEN.getD i 0 else 0)) 0

/-- Strict lexicographic comparison of character-code lists (proof-side,
used to certify that the wordlist has no duplicate entries). -/
def natListLtB : List Nat → List Nat → Bool
  | [], [] => false
  | [], _ :: _ => true
  | _ :: _, [] => false
  | a :: as, b :: bs => a < b || (a == b && natListLtB as bs)

def charCodes (s : String) : List Nat := s.data.map Char.toNat

def strLtB (a b : String) : Bool := natListLtB (charCodes a) (charCodes b)

/-- Adjacent strict ordering of a string list (proof-side). -/
def chainLtB : List String → Bool
  | [] => true
  | [_] => true
  | a :: b :: t => strLtB a b && chainLtB (b :: t)

/-- `w.toLowerCase()` of JavaScript, modelled character-wise (all SLIP-39
words and user input of interest are ASCII, where the two agree). -/
def jsToLower (s : String) : String := ⟨s.data.map Char.toLower⟩

/-! ### Share metadata (src/utils/slip39-full.ts lines 334-398) -/

structure ShareMetadata where
  identifier : Nat
  extendable : Bool
  iterationExponent : Nat
  groupIndex : Nat
  groupThreshold : Nat
  groupCount : Nat
  memberIndex : Nat
  memberThreshold : Nat
deriving Repr, DecidableEq

/-- `encodeMetadata`.  The `- 1` on the thresholds is JS number subtraction;
all callers pass thresholds `≥ 1`, where truncated `Nat` subtraction agrees. -/
def encodeMetadata (m : ShareMetadata) : List Nat :=
  [(m.identifier >>> 5) &&& 0x3FF,
   ((m.identifier &&& 0x1F) <<< 5) |||
     ((if m.extendable then 1 else 0) <<< 4) |||
     (m.iterationExponent &&& 0x0F),
   ((m.groupIndex &&& 0x0F) <<< 6) |||
     (((m.groupThreshold - 1) &&& 0x0F) <<< 2) |||
     (((m.groupCount - 1) &&& 0x0C) >>> 2),
   (((m.groupCount - 1) &&& 0x03) <<< 8) |||
     ((m.memberIndex &&& 0x0F) <<< 4) |||
     ((m.memberThreshold - 1) &&& 0x0F)]

def decodeMetadata (wordIndices : List Nat) : ShareMetadata :=
  let w0 := wordIndices.getD 0 0
  let w1 := wordIndices.getD 1 0
  let w2 := wordIndices.getD 2 0
  let w3 := wordIndices.getD 3 0
  { identifier := ((w0 <<< 5) ||| ((w1 >>> 5) &&& 0x1F)) &&& 0x7FFF
    extendable := ((w1 >>> 4) &&& 1) == 1
    iterationExponent := w1 &&& 0x0F
    groupIndex := (w2 >>> 6) &&& 0x0F
    groupThreshold := ((w2 >>> 2) &&& 0x0F) + 1
    groupCount := (((w2 &&& 0x03) <<< 2) ||| ((w3 >>> 8) &&& 0x03)) + 1
    memberIndex := (w3 >>> 4) &&& 0x0F
    memberThreshold := (w3 &&& 0x0F) + 1 }

/-! ### Base-1024 / byte conversions (src/utils/slip39-full.ts lines 400-478)

The source converts between byte arrays and `BigInt` and between `BigInt`
and base-1024 digit lists with `unshift` loops that peel the least
significant digit first; `bigEndianDigits base k v` is that loop's result
(the big-endian `k`-digit expansion of `v`). -/

/-- `for (const byte of bytes) valueInt = (valueInt << 8n) + BigInt(byte)` -/
def bytesToInt (bytes : List Nat) : Nat :=
  bytes.foldl (fun acc b => (acc <<< 8) + b) 0

/-- `for (const w of valueWords) valueInt = valueInt * 1024n + BigInt(w)` -/
def wordsToInt (ws : List Nat) : Nat :=
  ws.foldl (fun acc w => acc * 1024 + w) 0

def bigEndianDigits (base : Nat) : Nat → Nat → List Nat
  | 0, _ => []
  | k + 1, v => bigEndianDigits base k (v / base) ++ [v % base]

/-- `encodeShare` (word indices mapped to wordlist entries at the end). -/
def encodeShare (metadata : ShareMetadata) (encryptedSecret : List Nat) : List String :=
  let words0 := encodeMetadata metadata
  let totalBits := encryptedSecret.length * 8
  let totalWords := (totalBits + 9) / 10
  let secretWords := bigEndianDigits 1024 totalWords (bytesToInt encryptedSecret)
  let words1 := words0 ++ secretWords
  let customization := if metadata.extendable then "shamir_extendable" else "shamir"
  (words1 ++ rs1024CreateChecksum customization words1).map
    (fun idx => SLIP39_WORDLIST.getD idx "")

/-- The `words.map(w => WORD_TO_INDEX.get(w.toLowerCase()))` prologue of
`decodeShare`, propagating the `Invalid word` failure. -/
def wordIndicesOf : List String → Option (List Nat)
  | [] => some []
  | w :: ws =>
    match wordToIndex (jsToLower w), wordIndicesOf ws with
    | some i, some is => some (i :: is)
    | _, _ => none

/-- `decodeShare` (src/utils/slip39-full.ts lines 430-478).  The
`slice(4, -3)` is written `(drop 4).take (length - 7)`, and the `unshift`
byte loop is `bigEndianDigits 256`. -/
def decodeShare (words : List String) : Except String (ShareMetadata × List Nat) :=
  match wordIndicesOf words with
  | none => Except.error "Invalid word"
  | some wordIndices =>
    if wordIndices.length ≠ 20 ∧ wordIndices.length ≠ 33 then
      Except.error "Invalid mnemonic length"
    else
      let metadata := decodeMetadata wordIndices
      let valueWords := (wordIndices.drop 4).take (wordIndices.length - 7)
      let totalValueBits := valueWords.length * 10
      let paddingBits := totalValueBits % 16
      let dataBits := totalValueBits - paddingBits
      let valueByteCount := dataBits / 8
      let valueInt := wordsToInt valueWords
      if valueInt > 2 ^ dataBits - 1 then
        Except.error "Invalid mnemonic padding"
      else
        Except.ok (metadata, bigEndianDigits 256 valueByteCount valueInt)

/-! ### Feistel cipher (src/utils/slip39-full.ts lines 147-151, 214-328)

The PBKDF2 primitive comes from the `@noble/hashes` library, not from this
repository; it is kept abstract as a parameter
`pbkdf2F : input → salt → iterations → dkLen → output`.  Every theorem
assumes only that it returns a byte list of length `dkLen`. -/

def ITERATION_COUNT : Nat := 10000
def ROUND_COUNT : Nat := 4

def getIterationsPerRound (iterationExponent : Nat) : Nat :=
  (ITERATION_COUNT <<< iterationExponent) / ROUND_COUNT

/-- `buildSalt`: for non-extendable shares, the UTF-8 bytes of `"shamir"`
followed by the identifier as two big-endian bytes. -/
def buildSalt (identifier : Nat) (extendable : Bool) : List Nat :=
  if extendable then []
  else customizationValues "shamir" ++ [(identifier >>> 8) &&& 0xFF, identifier &&& 0xFF]

/-- `feistelRound`: PBKDF2 over `bytes([round]) + passphrase` with salt
`salt + R` and output length `len(R)`.  The passphrase is modelled as its
NFKD-normalised UTF-8 byte list (empty throughout this repository). -/
def feistelRound (pbkdf2F : List Nat → List Nat → Nat → Nat → List Nat)
    (round : Nat) (passphrase : List Nat) (iterationExponent : Nat)
    (salt R : List Nat) : List Nat :=
  pbkdf2F (round :: passphrase) (salt ++ R) (getIterationsPerRound iterationExponent) R.length

/-- `newR[j] = L[j] ^ F[j]` for `j < half` (`Uint8Array` XOR of bytes). -/
def xorHalf (half : Nat) (L F : List Nat) : List Nat :=
  (List.range half).map (fun j => L.getD j 0 ^^^ F.getD j 0)

/-- The round loop shared by `feistelCipherEncrypt` (rounds `[0,1,2,3]`)
and `feistelCipherDecrypt` (rounds `[3,2,1,0]`):
`newR = L ^ F(i, R); L = R; R = newR`. -/
def feistelRounds (pbkdf2F : List Nat → List Nat → Nat → Nat → List Nat)
    (rounds : List Nat) (passphrase : List Nat) (iterationExponent : Nat)
    (salt : List Nat) (half : Nat) (L R : List Nat) : List Nat × List Nat :=
  rounds.foldl
    (fun p i => (p.2, xorHalf half p.1 (feistelRound pbkdf2F i passphrase iterationExponent salt p.2)))
    (L, R)

/-- Split `data` into halves `L`/`R` (`half = data.length / 2`), run the
given round sequence, and return `R ++ L` (the ciphers' `result.set(R, 0);
result.set(L, half)`). -/
def feistelHalves (pbkdf2F : List Nat → List Nat → Nat → Nat → List Nat)
    (rounds : List Nat) (passphrase : List Nat) (iterationExponent : Nat)
    (salt : List Nat) (data : List Nat) : List Nat :=
  (feistelRounds pbkdf2F rounds passphrase iterationExponent salt (data.length / 2)
      (data.take (data.length / 2)) (data.drop (data.length / 2))).2 ++
  (feistelRounds pbkdf2F rounds passphrase iterationExponent salt (data.length / 2)
      (data.take (data.length / 2)) (data.drop (data.length / 2))).1

def feistelCipherEncrypt (pbkdf2F : List Nat → List Nat → Nat → Nat → List Nat)
    (data : List Nat) (passphrase : List Nat) (iterationExponent identifier : Nat)
    (extendable : Bool) : Except String (List Nat) :=
  if data.length % 2 ≠ 0 then Except.error "Data length must be even"
  else Except.ok (feistelHalves pbkdf2F (List.range ROUND_COUNT) passphrase iterationExponent
    (buildSalt identifier extendable) data)

def feistelCipherDecrypt (pbkdf2F : List Nat → List Nat → Nat → Nat → List Nat)
    (data : List Nat) (passphrase : List Nat) (iterationExponent identifier : Nat)
    (extendable : Bool) : Except String (List Nat) :=
  if data.length % 2 ≠ 0 then Except.error "Data length must be even"
  else Except.ok (feistelHalves pbkdf2F ((List.range ROUND_COUNT).reverse) passphrase
    iterationExponent (buildSalt identifier extendable) data)

/-! ### Main API (src/utils/slip39-full.ts lines 490-575) -/

/-- `generateMnemonic`.  The source draws `identifier` from
`generateIdentifier()` (two random bytes masked with `0x7FFF`); the model
takes that random draw as the parameter `identifier`.  The result is the
word list (the source returns `words.join(' ')`). -/
def generateMnemonic (pbkdf2F : List Nat → List Nat → Nat → Nat → List Nat)
    (identifier : Nat) (masterSecret : List Nat) : Except String (List String) :=
  if masterSecret.length ≠ 16 ∧ masterSecret.length ≠ 32 then
    Except.error "Master secret must be 16 bytes (128-bit) or 32 bytes (256-bit)"
  else
    match feistelCipherEncrypt pbkdf2F masterSecret [] 0 identifier false with
    | Except.error e => Except.error e
    | Except.ok encryptedSecret =>
      Except.ok (encodeShare
        { identifier := identifier, extendable := false, iterationExponent := 0,
          groupIndex := 0, groupThreshold := 1, groupCount := 1,
          memberIndex := 0, memberThreshold := 1 } encryptedSecret)

/-- `validateMnemonic`, on the whitespace-split word list. -/
def validateMnemonic (words : List String) : Bool :=
  if words.length ≠ 20 ∧ words.length ≠ 33 then false
  else if ¬ (words.all (fun w => (wordToIndex (jsToLower w)).isSome)) then false
  else
    let wordIndices := words.map (fun w => (wordToIndex (jsToLower w)).getD 0)
    let extendable := ((wordIndices.getD 1 0) >>> 4) &&& 1 == 1
    let customization := if extendable then "shamir_extendable" else "shamir"
    rs1024VerifyChecksum customization wordIndices

/-- `recoverMasterSecret`, on the whitespace-split word list. -/
def recoverMasterSecret (pbkdf2F : List Nat → List Nat → Nat → Nat → List Nat)
    (words : List String) : Except String (List Nat) :=
  if words.length ≠ 20 ∧ words.length ≠ 33 then
    Except.error "Invalid mnemonic length"
  else
    match decodeShare words with
    | Except.error e => Except.error e
    | Except.ok (metadata, encryptedSecret) =>
      feistelCipherDecrypt pbkdf2F encryptedSecret [] metadata.iterationExponent
        metadata.identifier metadata.extendable

/-! ### Wallet data model (src/types.ts) -/

inductive AddressRole
  | funding
  | active
deriving Repr, DecidableEq

inductive LocalRole
  | user
  | heir
deriving Repr, DecidableEq

inductive AccountType
  | standard
  | inheritance
deriving Repr, DecidableEq, Inhabited

/-- `DerivedAddress`; the optional `change?`/`used` booleans are modelled as
`Bool` (JS treats the absent value as falsy everywhere they are read), the
optional `balance?` and `role?` as `Option`. -/
structure DerivedAddress where
  index : Nat
  address : String
  change : Bool
  used : Bool
  balance : Option Nat
  role : Option AddressRole
deriving Repr, DecidableEq, Inhabited

/-- `SpendingConditions` (non-negative integers per the data model). -/
structure SpendingConditions where
  noSpendBlocks : Nat
  multisigAfterBlocks : Nat
  userOnlyAfterBlocks : Nat
  heirOnlyAfterBlocks : Nat
deriving Repr, DecidableEq

structure InheritanceStatus where
  blocksSinceFunding : Nat
  canUserSpend : Bool
  canHeirSpend : Bool
  requiresMultisig : Bool
deriving Repr, DecidableEq

structure Account where
  id : String
  name : String
  type : AccountType
  balance : Nat
  addressIndex : Nat
  derivedAddresses : List DerivedAddress
  localRole : Option LocalRole
  localFingerprint : Option String
  localXpub : Option String
  counterpartyFingerprint : Option String
  counterpartyXpub : Option String
  identityDerivationPath : Option String
  fundingBranch : Option Nat
  heirFingerprint : Option String
  heirXpub : Option String
  heirName : Option String
  inheritanceActivated : Bool
  spendingConditions : Option SpendingConditions
  inheritanceStatus : Option InheritanceStatus
deriving Repr, DecidableEq, Inhabited

/-! ### Small helpers (src/services/wallet.ts lines 115-142) -/

/-- `hashStringToUint32` (FNV-1a).  JS `Math.imul` is 32-bit multiplication;
XOR and multiplication in two's complement agree with arithmetic modulo
`2^32`, and the final `>>> 0` is the identity on that representative. -/
def hashStringToUint32 (seed : String) : Nat :=
  seed.data.foldl (fun hash c => ((hash ^^^ c.toNat) * 16777619) % 4294967296) 2166136261

def deterministicBranchFromId (accountId : String) : Nat :=
  hashStringToUint32 accountId % 2147483646 + 1

/-- `getFundingBranch`: `account.fundingBranch ?? deterministicBranchFromId(account.id)`. -/
def getFundingBranch (account : Account) : Nat :=
  account.fundingBranch.getD (deterministicBranchFromId account.id)

/-! ### Activation state (src/services/wallet.ts lines 334-356) -/

def isFundingAddress (address : DerivedAddress) : Bool :=
  address.role == some AddressRole.funding

def isActiveInheritanceAddress (address : DerivedAddress) : Bool :=
  address.role != some AddressRole.funding

/-- `isInheritanceAccountActivated`. -/
def isInheritanceAccountActivated (account : Account) : Bool :=
  if account.type != AccountType.inheritance then false
  else if account.inheritanceActivated then true
  else account.derivedAddresses.any fun address =>
    (address.role == some AddressRole.active || address.role == none) &&
      (address.used || address.balance.getD 0 > 0)

/-! ### Inheritance status (src/services/wallet.ts lines 1090-1126)

`calculateInheritanceStatus` queries the chain for the tip height and the
first funding height and reduces them to `blocksSinceFunding`; the record
it builds from `blocksSinceFunding` and the conditions (lines 1118-1125)
is the pure core modelled here. -/

def calculateInheritanceStatusCore (conditions : SpendingConditions)
    (blocksSinceFunding : Nat) : InheritanceStatus :=
  { blocksSinceFunding := blocksSinceFunding
    canUserSpend := blocksSinceFunding ≥ conditions.userOnlyAfterBlocks
    canHeirSpend := blocksSinceFunding ≥ conditions.heirOnlyAfterBlocks
    requiresMultisig :=
      blocksSinceFunding ≥ conditions.multisigAfterBlocks &&
        blocksSinceFunding < conditions.userOnlyAfterBlocks }

/-! ### Balance update (src/services/wallet.ts lines 905-1088)

`updateAccountBalance` gathers per-address funding stats from the chain;
the resulting `updatedAddresses`, their `totalBalance`, and the
`blocksSinceFunding` used for the status update are environment inputs of
the model.  The account assembly of lines 1057-1087 is embedded exactly:
in particular line 1070, `inheritanceActivated =
Boolean(account.inheritanceActivated) || hasActiveHistory`. -/

def updateAccountBalanceCore (account : Account)
    (updatedAddresses : List DerivedAddress) (totalBalance : Nat)
    (blocksSinceFunding : Nat) : Account :=
  -- `reduce(max, -1)` over receive indexes, then `addressIndex = max(old, maxReceiveIndex + 1)`
  let maxReceiveIndexPlusOne :=
    (updatedAddresses.filter (fun a => !a.change)).foldl (fun m a => max m (a.index + 1)) 0
  let base := { account with
    balance := totalBalance
    addressIndex := max account.addressIndex maxReceiveIndexPlusOne
    derivedAddresses := updatedAddresses }
  let withFlag :=
    if account.type == AccountType.inheritance then
      let hasActiveHistory := updatedAddresses.any fun address =>
        (address.role == some AddressRole.active || address.role == none) &&
          (address.used || address.balance.getD 0 > 0)
      { base with
        inheritanceActivated := account.inheritanceActivated || hasActiveHistory
        fundingBranch := some (getFundingBranch account) }
    else base
  if account.type == AccountType.inheritance then
    match account.spendingConditions with
    | some conditions =>
      { withFlag with
        inheritanceStatus := some (calculateInheritanceStatusCore conditions blocksSinceFunding) }
    | none => withFlag
  else withFlag

/-- `updateAccountBalance`: lookup by id (early return when absent), update,
store at the same index (`accounts[accountIndex] = updatedAccount;
saveAccounts(accounts)`).  Returns the persisted list and the returned
account. -/
def updateAccountBalance (accounts : List Account) (account : Account)
    (updatedAddresses : List DerivedAddress) (totalBalance : Nat)
    (blocksSinceFunding : Nat) : List Account × Account :=
  match accounts.findIdx? (fun a => a.id == account.id) with
  | none => (accounts, account)
  | some accountIndex =>
    let updated := updateAccountBalanceCore account updatedAddresses totalBalance blocksSinceFunding
    (accounts.set accountIndex updated, updated)

/-! ### Fee estimation (src/services/wallet.ts lines 1249-1265)

`feeRate` is a JS number; it is modelled as a rational, with `Math.ceil`
as `Int.ceil`. -/

def estimateTaprootFee (inputCount outputCount : Nat) (feeRate : ℚ) : ℤ :=
  ⌈((10 + inputCount * 58 + outputCount * 43 : Nat) : ℚ) * feeRate⌉

def estimateInheritanceMultisigFee (inputCount outputCount : Nat) (feeRate : ℚ) : ℤ :=
  ⌈((12 + inputCount * 110 + outputCount * 43 : Nat) : ℚ) * feeRate⌉

/-! ### Coin selection in `sendBitcoin` (src/services/wallet.ts lines 1954-2043)

The model covers the pure selection logic: the UTXO set collected from the
account's addresses is an input, and the psbt construction/signing/
broadcast tail is out of scope.  Only the fields read by the selection are
kept on the UTXO record. -/

structure SendUtxo where
  txid : String
  vout : Nat
  value : Nat
deriving Repr, DecidableEq

/-- The `for (const utxo of allUtxos)` accumulation loop (lines 2017-2030):
push the next UTXO, stop as soon as the running sum covers
`amount + fee` for a 2-output or a 1-output transaction. -/
def selectUtxosLoop (amountSats : Nat) (feeRate : ℚ) :
    List SendUtxo → List SendUtxo → Nat → List SendUtxo × Nat
  | [], selected, selectedValue => (selected, selectedValue)
  | utxo :: rest, selected, selectedValue =>
    let selected' := selected ++ [utxo]
    let selectedValue' := selectedValue + utxo.value
    if (selectedValue' : ℤ) ≥ amountSats + estimateTaprootFee selected'.length 2 feeRate then
      (selected', selectedValue')
    else if (selectedValue' : ℤ) ≥ amountSats + estimateTaprootFee selected'.length 1 feeRate then
      (selected', selectedValue')
    else
      selectUtxosLoop amountSats feeRate rest selected' selectedValue'

structure CoinSelection where
  selected : List SendUtxo
  fee : ℤ
  addChangeOutput : Bool
  change : ℤ
deriving Repr, DecidableEq

/-- Lines 2032-2043 of `sendBitcoin`: the change/dust decision over the
selected set `p.1` and its value sum `p.2`, with `dustLimit = 330`:
`fee = fee(2 outputs); change = selectedValue - amount - fee;
addChangeOutput = change >= dustLimit`, recomputing with one output and
failing on negative change otherwise. -/
def finalizeSelection (amountSats : Nat) (feeRate : ℚ) (p : List SendUtxo × Nat) :
    Except String CoinSelection :=
  if (p.2 : ℤ) - amountSats - estimateTaprootFee p.1.length 2 feeRate ≥ 330 then
    Except.ok ⟨p.1, estimateTaprootFee p.1.length 2 feeRate, true,
      (p.2 : ℤ) - amountSats - estimateTaprootFee p.1.length 2 feeRate⟩
  else if (p.2 : ℤ) - amountSats - estimateTaprootFee p.1.length 1 feeRate < 0 then
    Except.error "Nedostatek prostředků včetně poplatku"
  else
    Except.ok ⟨p.1, estimateTaprootFee p.1.length 1 feeRate, false,
      (p.2 : ℤ) - amountSats - estimateTaprootFee p.1.length 1 feeRate⟩

/-- Lines 1974-2043 of `sendBitcoin`: amount/fee-rate validation, the
empty-UTXO guard, `allUtxos.sort((a, b) => b.value - a.value)` (descending
by value), the greedy loop, and the change/dust decision. -/
def sendBitcoinSelect (allUtxos : List SendUtxo) (amountSats : Nat) (feeRate : ℚ) :
    Except String CoinSelection :=
  if amountSats = 0 then Except.error "Neplatná částka v satech"
  else if feeRate ≤ 0 then Except.error "Neplatný fee rate"
  else if allUtxos.length = 0 then Except.error "Žádné UTXO k utracení"
  else
    finalizeSelection amountSats feeRate
      (selectUtxosLoop amountSats feeRate
        (allUtxos.mergeSort (fun a b => b.value ≤ a.value)) [] 0)

/-! ### Activation (src/services/wallet.ts lines 1828-1952)

Chain access, key derivation and transaction signing are environment
inputs; the outcome records the resulting persisted account list and the
broadcast attempts, so that the error paths' atomicity is visible. -/

structure SpendableUtxo where
  txid : String
  vout : Nat
  value : Nat
  address : String
  addressIndex : Nat
  change : Bool
deriving Repr, DecidableEq

structure ActivationEnv where
  /-- result of `collectInheritanceUtxos(accountRef, "funding")` -/
  fundingUtxos : List SpendableUtxo
  /-- the active destination address derived in `ensureInheritanceActiveAddress` -/
  destinationAddress : String
  /-- whether the local/server key derivations for all inputs succeed -/
  signingOk : Bool
  /-- whether `broadcastTransaction` succeeds, and the txid it returns -/
  broadcastOk : Bool
  txid : String
deriving Repr, DecidableEq

inductive ActivateError
  | notInheritance
  | invalidFeeRate
  | accountNotFound
  | alreadyActivated
  | noFundingUtxos
  | insufficientAfterFee
  | signingFailed
  | broadcastFailed
deriving Repr, DecidableEq

structure ActivationResult where
  txid : String
  movedAmount : ℤ
  fee : ℤ
  destination : String
deriving Repr, DecidableEq

structure ActivationOutcome where
  result : Except ActivateError ActivationResult
  /-- the persisted account list after the call (`saveAccounts` runs only on success) -/
  accounts : List Account
  /-- txids handed to `broadcastTransaction` -/
  broadcasts : List String
deriving Repr

/-- `ensureInheritanceActiveAddress` (lines 1422-1460), with the derived
destination address supplied by the environment. -/
def ensureInheritanceActiveAddress (account : Account) (destinationAddress : String) : Account :=
  let nextActiveIndex :=
    ((account.derivedAddresses.filter
        (fun a => a.role == some AddressRole.active && !a.change)).map
      (fun a => a.index + 1)).foldl max 0
  match account.derivedAddresses.findIdx? (fun a => a.address == destinationAddress) with
  | some i =>
    let existing := account.derivedAddresses.getD i default
    { account with
      derivedAddresses := account.derivedAddresses.set i
        { existing with role := some AddressRole.active, used := true } }
  | none =>
    { account with
      derivedAddresses := account.derivedAddresses ++
        [{ index := nextActiveIndex, address := destinationAddress, change := false,
           used := true, balance := some 0, role := some AddressRole.active }]
      addressIndex := max account.addressIndex (nextActiveIndex + 1) }

/-- `activateInheritanceFunds`.  Guards in source order: account type, fee
rate, account lookup, `isInheritanceAccountActivated`, funding UTXOs,
`movedAmount <= 330`; then psbt construction, signing, broadcast, and only
then `accountRef.inheritanceActivated = true; saveAccounts(accounts)`. -/
def activateInheritanceFunds (env : ActivationEnv) (accounts : List Account)
    (account : Account) (feeRate : ℚ) : ActivationOutcome :=
  if account.type != AccountType.inheritance then
    ⟨Except.error ActivateError.notInheritance, accounts, []⟩
  else if feeRate ≤ 0 then
    ⟨Except.error ActivateError.invalidFeeRate, accounts, []⟩
  else
    match accounts.findIdx? (fun a => a.id == account.id) with
    | none => ⟨Except.error ActivateError.accountNotFound, accounts, []⟩
    | some accountIndex =>
      let accountRef := accounts.getD accountIndex default
      if isInheritanceAccountActivated accountRef then
        ⟨Except.error ActivateError.alreadyActivated, accounts, []⟩
      else if env.fundingUtxos.length = 0 then
        ⟨Except.error ActivateError.noFundingUtxos, accounts, []⟩
      else
        let totalValue := (env.fundingUtxos.map (fun u => u.value)).sum
        let fee := estimateInheritanceMultisigFee env.fundingUtxos.length 1 feeRate
        let movedAmount : ℤ := (totalValue : ℤ) - fee
        if movedAmount ≤ 330 then
          ⟨Except.error ActivateError.insufficientAfterFee, accounts, []⟩
        else
          let withDestination := ensureInheritanceActiveAddress accountRef env.destinationAddress
          if !env.signingOk then
            ⟨Except.error ActivateError.signingFailed, accounts, []⟩
          else if !env.broadcastOk then
            ⟨Except.error ActivateError.broadcastFailed, accounts, [env.txid]⟩
          else
            let activated := { withDestination with inheritanceActivated := true }
            ⟨Except.ok ⟨env.txid, movedAmount, fee, env.destinationAddress⟩,
              accounts.set accountIndex activated, [env.txid]⟩

/-! ### Account creation (src/services/wallet.ts lines 599-699) -/

structure HeirContact where
  id : String
  name : String
  fingerprint : String
  xpub : String
deriving Repr, DecidableEq

structure CreateEnv where
  /-- fingerprint/xpub of `deriveLocalIdentity(masterKey)` -/
  localFingerprint : String
  localXpub : String
  identityDerivationPath : String
  /-- whether `normalizeCounterpartyContact` succeeds, and its result -/
  normalizeOk : Bool
  normalizedFingerprint : String
  normalizedXpub : String
  /-- `generateInheritanceAccountId()` (random) -/
  generatedId : String
  /-- whether both `deriveInheritanceAddressFromXpubs` calls succeed, and their results -/
  deriveOk : Bool
  fundingAddress : String
  activeAddress : String
deriving Repr, DecidableEq

structure CreateOutcome where
  result : Except String Account
  /-- the persisted account list after the call -/
  accounts : List Account
  saved : Bool
deriving Repr

/-- `resolveInheritanceParticipantsFromInputs` (lines 312-332), restricted
to the user/heir pair actually read by `createInheritanceAccount`. -/
def resolveParticipantsFromInputs (localRole : LocalRole)
    (localFingerprint localXpub counterpartyFingerprint counterpartyXpub : String) :
    String × String × String × String :=
  (if localRole == LocalRole.user then localFingerprint else counterpartyFingerprint,
   if localRole == LocalRole.user then localXpub else counterpartyXpub,
   if localRole == LocalRole.heir then localFingerprint else counterpartyFingerprint,
   if localRole == LocalRole.heir then localXpub else counterpartyXpub)

/-- `accountIdOverride || generateInheritanceAccountId()`: the override is
used unless absent or the empty string (JS `||` on strings). -/
def resolveInheritanceAccountId (accountIdOverride : Option String) (generatedId : String) : String :=
  match accountIdOverride with
  | some s => if s ≠ "" then s else generatedId
  | none => generatedId

/-- `createInheritanceAccount`. -/
def createInheritanceAccount (env : CreateEnv) (accounts : List Account)
    (name : String) (counterparty : HeirContact) (localRole : LocalRole)
    (conditions : SpendingConditions) (accountIdOverride : Option String) : CreateOutcome :=
  if !env.normalizeOk then
    ⟨Except.error "Neplatný kontakt protistrany", accounts, false⟩
  else
    let participants := resolveParticipantsFromInputs localRole
      env.localFingerprint env.localXpub env.normalizedFingerprint env.normalizedXpub
    let accountId := resolveInheritanceAccountId accountIdOverride env.generatedId
    let fundingBranch := deterministicBranchFromId accountId
    if !env.deriveOk then
      ⟨Except.error "Neplatný xpub/tpub protistrany", accounts, false⟩
    else
      match accounts.find? (fun storedAccount => storedAccount.id == accountId) with
      | some existing => ⟨Except.ok existing, accounts, false⟩
      | none =>
        let account : Account :=
          { id := accountId
            name := name
            type := AccountType.inheritance
            balance := 0
            addressIndex := 1
            derivedAddresses :=
              [{ index := 0, address := env.fundingAddress, change := false,
                 used := false, balance := none, role := some AddressRole.funding },
               { index := 0, address := env.activeAddress, change := false,
                 used := false, balance := none, role := some AddressRole.active }]
            localRole := some localRole
            localFingerprint := some env.localFingerprint
            localXpub := some env.localXpub
            counterpartyFingerprint := some env.normalizedFingerprint
            counterpartyXpub := some env.normalizedXpub
            identityDerivationPath := some env.identityDerivationPath
            fundingBranch := some fundingBranch
            heirFingerprint := some env.normalizedFingerprint
            heirXpub := some env.normalizedXpub
            heirName := some counterparty.name
            inheritanceActivated := false
            spendingConditions := some conditions
            inheritanceStatus := some
              { blocksSinceFunding := 0, canUserSpend := false,
                canHeirSpend := false, requiresMultisig := false } }
        have _ := participants
        ⟨Except.ok account, accounts ++ [account], true⟩

/-! ### Account-creation form validation (src/components/InheritanceModal.tsx
lines 64-95)

The three block counts arrive as JS numbers from the form; integral inputs
are modelled as `ℤ` (on them `Math.floor` is the identity; `NaN` is outside
the model).  `handleCreate` rejects before ever calling
`createInheritanceAccount` when a count is negative or the multisig
threshold exceeds one of the single-key thresholds. -/

def handleCreateSpendingConditions (multisigAfterBlocks userOnlyAfterBlocks heirOnlyAfterBlocks : ℤ) :
    Except String SpendingConditions :=
  if multisigAfterBlocks < 0 ∨ userOnlyAfterBlocks < 0 ∨ heirOnlyAfterBlocks < 0 then
    Except.error "Počty bloků musí být nezáporná celá čísla"
  else if multisigAfterBlocks > userOnlyAfterBlocks ∨ multisigAfterBlocks > heirOnlyAfterBlocks then
    Except.error "Společné utrácení musí začínat nejpozději ve stejném bloku jako samostatné utrácení"
  else
    Except.ok
      { noSpendBlocks := multisigAfterBlocks.toNat
        multisigAfterBlocks := multisigAfterBlocks.toNat
        userOnlyAfterBlocks := userOnlyAfterBlocks.toNat
        heirOnlyAfterBlocks := heirOnlyAfterBlocks.toNat }

/-- The metadata record `generateMnemonic` builds for a single-share,
non-extendable mnemonic (identifier as drawn, everything else fixed). -/
def plainShareMetadata (identifier : Nat) : ShareMetadata :=
  { identifier := identifier
    extendable := false
    iterationExponent := 0
    groupIndex := 0
    groupThreshold := 1
    groupCount := 1
    memberIndex := 0
    memberThreshold := 1 }

/-! ### Concrete sample values used by witnesses -/

/-- A stub PBKDF2 returning `dkLen` zero bytes (witnesses instantiate the
abstract PBKDF2 parameter with it). -/
def pbkdf2Zero : List Nat → List Nat → Nat → Nat → List Nat := fun _ _ _ n => List.replicate n 0

/-- A valid 20-word mnemonic: all-zero metadata and value words with the
matching RS1024 checksum words. -/
def sampleMnemonic : List String :=
  List.replicate 17 "academic" ++ ["rebuild", "aquatic", "spew"]

/-- A sample stored account used by concrete witnesses. -/
def sampleActivatedAccount : Account :=
  { (default : Account) with
      id := "a"
      type := AccountType.inheritance
      inheritanceActivated := true }

/-- A sample stored account with a known id, used by concrete witnesses. -/
def sampleStoredAccount : Account := { (default : Account) with id := "acc-1" }

/-! ## Theorems -/

/-- C2: for every `SpendingConditions` (which by the data model's invariant
satisfies `multisigAfterBlocks ≤ userOnlyAfterBlocks` and
`multisigAfterBlocks ≤ heirOnlyAfterBlocks`) and every `blocksSinceFunding`:
before `multisigAfterBlocks` nobody may spend; between `multisigAfterBlocks`
and `min userOnlyAfterBlocks heirOnlyAfterBlocks` 2-of-2 multisig is
required and neither single key suffices; at or past `userOnlyAfterBlocks`
the user alone may spend; at or past `heirOnlyAfterBlocks` the heir alone
may spend (both single-key windows can be open at once). -/
theorem inheritance_spending_windows (conditions : SpendingConditions)
    (hu : conditions.multisigAfterBlocks ≤ conditions.userOnlyAfterBlocks)
    (hh : conditions.multisigAfterBlocks ≤ conditions.heirOnlyAfterBlocks)
    (blocksSinceFunding : Nat) :
    (blocksSinceFunding < conditions.multisigAfterBlocks →
      (calculateInheritanceStatusCore conditions blocksSinceFunding).canUserSpend = false ∧
      (calculateInheritanceStatusCore conditions blocksSinceFunding).canHeirSpend = false ∧
      (calculateInheritanceStatusCore conditions blocksSinceFunding).requiresMultisig = false) ∧
    (conditions.multisigAfterBlocks ≤ blocksSinceFunding ∧
        blocksSinceFunding < min conditions.userOnlyAfterBlocks conditions.heirOnlyAfterBlocks →
      (calculateInheritanceStatusCore conditions blocksSinceFunding).requiresMultisig = true ∧
      (calculateInheritanceStatusCore conditions blocksSinceFunding).canUserSpend = false ∧
      (calculateInheritanceStatusCore conditions blocksSinceFunding).canHeirSpend = false) ∧
    (conditions.userOnlyAfterBlocks ≤ blocksSinceFunding →
      (calculateInheritanceStatusCore conditions blocksSinceFunding).canUserSpend = true) ∧
    (conditions.heirOnlyAfterBlocks ≤ blocksSinceFunding →
      (calculateInheritanceStatusCore conditions blocksSinceFunding).canHeirSpend = true) := by
  refine ⟨fun h => ?_, fun h => ?_, fun h => ?_, fun h => ?_⟩ <;>
    simp [calculateInheritanceStatusCore] <;> omega

theorem inheritance_spending_windows_witness :
    (3 : Nat) ≤ 10 ∧ (3 : Nat) ≤ 20 ∧
    ((calculateInheritanceStatusCore ⟨3, 3, 10, 20⟩ 12).canUserSpend = true) := by
  refine ⟨by decide, by decide, ?_⟩
  exact (inheritance_spending_windows ⟨3, 3, 10, 20⟩ (by decide) (by decide) 12).2.2.1 (by decide)

/-- C9: the activated flag is monotonic in the modelled account-mutating
operations: `updateAccountBalanceCore` never clears `inheritanceActivated`
(it ORs the old value with the fresh activity evidence), and
`activateInheritanceFunds` never stores an account whose flag it cleared
(error paths leave the list untouched, the success path stores the flag as
`true`). -/
theorem inheritance_activated_monotonic :
    (∀ (account : Account) (updatedAddresses : List DerivedAddress)
        (totalBalance blocksSinceFunding : Nat),
      account.inheritanceActivated = true →
      (updateAccountBalanceCore account updatedAddresses totalBalance
          blocksSinceFunding).inheritanceActivated = true) ∧
    (∀ (env : ActivationEnv) (accounts : List Account) (account : Account)
        (feeRate : ℚ) (i : Nat),
      (accounts.getD i default).inheritanceActivated = true →
      (((activateInheritanceFunds env accounts account feeRate).accounts).getD i
          default).inheritanceActivated = true) := by
  constructor
  · intro account updatedAddresses totalBalance blocksSinceFunding hflag
    simp only [updateAccountBalanceCore]
    by_cases htype : account.type == AccountType.inheritance
    · simp only [htype, if_true, hflag, Bool.true_or]
      cases account.spendingConditions <;> simp
    · simp only [htype, if_false, Bool.false_eq_true]
      cases account.spendingConditions <;> simp_all
  · intro env accounts account feeRate i hflag
    simp only [activateInheritanceFunds]
    split
    · exact hflag
    · split
      · exact hflag
      · split
        · exact hflag
        · rename_i accountIndex heq
          split
          · exact hflag
          · split
            · exact hflag
            · split
              · exact hflag
              · split
                · exact hflag
                · split
                  · exact hflag
                  · by_cases hi : accountIndex = i
                    · subst hi
                      by_cases hlt : accountIndex < accounts.length
                      · rw [List.getD, List.get?_eq_getElem?,
                          List.getElem?_set_self (by simpa using hlt)]
                        rfl
                      · rw [List.getD, List.get?_eq_getElem?, List.getElem?_set, if_pos rfl,
                          if_neg (by omega)]
                        rw [List.getD, List.get?_eq_getElem?,
                          List.getElem?_eq_none (by omega)] at hflag
                        exact hflag
                    · rw [List.getD, List.get?_eq_getElem?, List.getElem?_set_ne hi,
                        ← List.get?_eq_getElem?]
                      exact hflag

theorem inheritance_activated_monotonic_witness :
    ((⟨"a", "n", AccountType.inheritance, 0, 0, [], none, none, none, none, none,
        none, none, none, none, none, true, none, none⟩ : Account).inheritanceActivated = true) ∧
    ((updateAccountBalanceCore
        ⟨"a", "n", AccountType.inheritance, 0, 0, [], none, none, none, none, none,
          none, none, none, none, none, true, none, none⟩ [] 0 0).inheritanceActivated = true) :=
  ⟨rfl, inheritance_activated_monotonic.1 _ [] 0 0 rfl⟩

/-- C5: invoking `activateInheritanceFunds` on an already-activated
inheritance account (given a valid fee rate and the account present in the
stored list) fails with `AlreadyActivated` ("Účet je už aktivovaný"), and
in that case no broadcast is attempted and the stored account list is
returned unchanged: the guard precedes all transaction construction,
signing, broadcast and `saveAccounts`. -/
theorem activate_already_activated (env : ActivationEnv) (accounts : List Account)
    (account : Account) (feeRate : ℚ)
    (htype : account.type = AccountType.inheritance)
    (hfee : 0 < feeRate)
    (accountIndex : Nat)
    (hfound : accounts.findIdx? (fun a => a.id == account.id) = some accountIndex)
    (hactivated : isInheritanceAccountActivated (accounts.getD accountIndex default) = true) :
    activateInheritanceFunds env accounts account feeRate =
      ⟨Except.error ActivateError.alreadyActivated, accounts, []⟩ := by
  rw [activateInheritanceFunds, if_neg (by simp [htype]), if_neg (by simp; exact hfee), hfound]
  simp only [hactivated, if_true]

theorem activate_already_activated_witness :
    activateInheritanceFunds ⟨[], "d", true, true, "t"⟩ [sampleActivatedAccount]
        sampleActivatedAccount 1 =
      ⟨Except.error ActivateError.alreadyActivated, [sampleActivatedAccount], []⟩ := by
  exact activate_already_activated _ _ _ _ rfl (by norm_num) 0 (by rfl) (by rfl)

/-- C10: `createInheritanceAccount` is idempotent on account identity: when
the stored list already contains an account with the resolved id (override
or generated), and the counterparty normalisation and address derivations
succeed, the call returns that stored account and neither appends a
duplicate nor saves. -/
theorem create_inheritance_account_idempotent (env : CreateEnv) (accounts : List Account)
    (name : String) (counterparty : HeirContact) (localRole : LocalRole)
    (conditions : SpendingConditions) (accountIdOverride : Option String)
    (hnorm : env.normalizeOk = true) (hderive : env.deriveOk = true)
    (existing : Account)
    (hfound : accounts.find?
        (fun storedAccount =>
          storedAccount.id == resolveInheritanceAccountId accountIdOverride env.generatedId) =
      some existing) :
    createInheritanceAccount env accounts name counterparty localRole conditions
        accountIdOverride =
      ⟨Except.ok existing, accounts, false⟩ := by
  rw [createInheritanceAccount, if_neg (by simp [hnorm])]
  simp only [hderive, Bool.not_true, Bool.false_eq_true, if_false, hfound]

theorem create_inheritance_account_idempotent_witness :
    createInheritanceAccount ⟨"fp", "xp", "m", true, "cfp", "cxp", "gen-id", true, "fa", "aa"⟩
        [sampleStoredAccount] "Dědický účet"
        ⟨"heir-1", "Heir", "cfp", "cxp"⟩ LocalRole.user ⟨5, 5, 10, 10⟩ (some "acc-1") =
      ⟨Except.ok sampleStoredAccount, [sampleStoredAccount], false⟩ := by
  exact create_inheritance_account_idempotent _ _ _ _ _ _ _ rfl rfl _ (by rfl)

/-- C7 as stated is false: `createInheritanceAccount` performs no validation
of the spending-conditions invariant.  With `multisigAfterBlocks = 10` and
`userOnlyAfterBlocks = heirOnlyAfterBlocks = 0` (violating the invariant),
the call succeeds and appends the account to the stored list instead of
failing. -/
theorem create_inheritance_account_no_validation :
    ¬ (10 : Nat) ≤ (0 : Nat) ∧
    (∃ account,
      (createInheritanceAccount ⟨"fp", "xp", "m", true, "cfp", "cxp", "gen-id", true, "fa", "aa"⟩
          [] "Dědický účet" ⟨"heir-1", "Heir", "cfp", "cxp"⟩ LocalRole.user
          ⟨10, 10, 0, 0⟩ none).result = Except.ok account ∧
      account.spendingConditions = some ⟨10, 10, 0, 0⟩) ∧
    (createInheritanceAccount ⟨"fp", "xp", "m", true, "cfp", "cxp", "gen-id", true, "fa", "aa"⟩
        [] "Dědický účet" ⟨"heir-1", "Heir", "cfp", "cxp"⟩ LocalRole.user
        ⟨10, 10, 0, 0⟩ none).accounts.length = 1 := by
  refine ⟨by decide, ⟨_, rfl, rfl⟩, rfl⟩

/-- C7 amended: the invariant `multisigAfterBlocks ≤ userOnlyAfterBlocks ∧
multisigAfterBlocks ≤ heirOnlyAfterBlocks` is enforced at account-creation
time by the form handler `handleCreate` in `InheritanceModal.tsx`, which
rejects violating block counts with an error before ever invoking
`createInheritanceAccount`. -/
theorem handle_create_rejects_invalid_conditions
    (multisigAfterBlocks userOnlyAfterBlocks heirOnlyAfterBlocks : ℤ)
    (hviol : ¬ (multisigAfterBlocks ≤ userOnlyAfterBlocks ∧
                multisigAfterBlocks ≤ heirOnlyAfterBlocks)) :
    ∃ e, handleCreateSpendingConditions multisigAfterBlocks userOnlyAfterBlocks
        heirOnlyAfterBlocks = Except.error e := by
  rw [handleCreateSpendingConditions]
  split
  · exact ⟨_, rfl⟩
  · rw [if_pos (by omega)]
    exact ⟨_, rfl⟩

theorem handle_create_rejects_invalid_conditions_witness :
    (¬ ((10 : ℤ) ≤ 0 ∧ (10 : ℤ) ≤ 0)) ∧
    ∃ e, handleCreateSpendingConditions 10 0 0 = Except.error e :=
  ⟨by decide, handle_create_rejects_invalid_conditions 10 0 0 (by decide)⟩

/-- The greedy loop extends the already-selected prefix by an initial
segment of the remaining candidates, and keeps the running sum in sync. -/
theorem selectUtxosLoop_spec (amountSats : Nat) (feeRate : ℚ) :
    ∀ (rest selected : List SendUtxo) (selectedValue : Nat),
      ∃ k, (selectUtxosLoop amountSats feeRate rest selected selectedValue).1 =
          selected ++ rest.take k ∧
        (selectUtxosLoop amountSats feeRate rest selected selectedValue).2 =
          selectedValue + ((rest.take k).map (fun u => u.value)).sum := by
  intro rest
  induction rest with
  | nil =>
    intro selected selectedValue
    exact ⟨0, by simp [selectUtxosLoop]⟩
  | cons u tl ih =>
    intro selected selectedValue
    rw [selectUtxosLoop]
    split
    · exact ⟨1, by simp⟩
    · split
      · exact ⟨1, by simp⟩
      · obtain ⟨k, h1, h2⟩ := ih (selected ++ [u]) (selectedValue + u.value)
        refine ⟨k + 1, ?_, ?_⟩
        · rw [h1]; simp
        · rw [h2]; simp; omega

/-- C4 as stated is false at the dust boundary: with a single 1484-satoshi
UTXO, a 1000-satoshi target and fee rate 1, the built transaction has
`change = 1484 - 1000 - 154 = 330`, which does not exceed the 330-satoshi
dust threshold, yet the code includes a change output (the source tests
`change >= dustLimit`, not `>`). -/
theorem send_bitcoin_dust_boundary :
    sendBitcoinSelect [⟨"tx", 0, 1484⟩] 1000 1 =
      Except.ok ⟨[⟨"tx", 0, 1484⟩], 154, true, 330⟩ ∧ ¬ ((330 : ℤ) > 330) := by
  constructor
  · have h154 : estimateTaprootFee 1 2 1 = 154 := by norm_num [estimateTaprootFee]
    have h111 : estimateTaprootFee 1 1 1 = 111 := by norm_num [estimateTaprootFee]
    rw [sendBitcoinSelect, if_neg (by norm_num), if_neg (by norm_num), if_neg (by simp),
      List.mergeSort_singleton, selectUtxosLoop]
    rw [if_pos (by simp only [List.nil_append, List.length_cons, List.length_nil, h154]; norm_num)]
    rw [finalizeSelection]
    rw [if_pos (by simp only [List.nil_append, List.length_cons, List.length_nil, h154]; norm_num)]
    simp only [List.nil_append, List.length_cons, List.length_nil, h154]
    norm_num
  · norm_num

/-- C4 amended: for every non-empty UTXO list, positive target and positive
fee rate, the selection considers candidates in descending value order,
the selected set is a greedy initial segment of that order, and on success
`sum selected ≥ target + fee` for the final (1- or 2-output) fee, with a
change output included exactly when the 2-output change would be at least
(not strictly above) the 330-satoshi dust threshold; otherwise the call
fails with `InsufficientFunds` ("Nedostatek prostředků včetně poplatku").
An underfunded transaction is never built. -/
theorem send_bitcoin_coin_selection (allUtxos : List SendUtxo) (amountSats : Nat)
    (feeRate : ℚ) (hne : allUtxos ≠ []) (hamt : 0 < amountSats) (hfee : 0 < feeRate) :
    List.Pairwise (fun a b => b.value ≤ a.value)
        (allUtxos.mergeSort (fun a b => b.value ≤ a.value)) ∧
    (∀ sel, sendBitcoinSelect allUtxos amountSats feeRate = Except.ok sel →
      (∃ k, sel.selected =
        (allUtxos.mergeSort (fun a b => b.value ≤ a.value)).take k) ∧
      ((((sel.selected.map (fun u => u.value)).sum : ℕ) : ℤ) ≥ (amountSats : ℤ) + sel.fee) ∧
      (sel.addChangeOutput = true ↔
        (((sel.selected.map (fun u => u.value)).sum : ℕ) : ℤ) - amountSats -
            estimateTaprootFee sel.selected.length 2 feeRate ≥ 330) ∧
      (sel.addChangeOutput = true →
        sel.fee = estimateTaprootFee sel.selected.length 2 feeRate) ∧
      (sel.addChangeOutput = false →
        sel.fee = estimateTaprootFee sel.selected.length 1 feeRate) ∧
      sel.change = (((sel.selected.map (fun u => u.value)).sum : ℕ) : ℤ) - amountSats - sel.fee) ∧
    (∀ e, sendBitcoinSelect allUtxos amountSats feeRate = Except.error e →
      e = "Nedostatek prostředků včetně poplatku") := by
  have hsorted : List.Pairwise (fun a b : SendUtxo => b.value ≤ a.value)
      (allUtxos.mergeSort (fun a b => b.value ≤ a.value)) := by
    have := @List.sorted_mergeSort SendUtxo
      (fun a b : SendUtxo => decide (b.value ≤ a.value))
      (fun a b c hab hbc => by
        simp only [decide_eq_true_eq] at *; omega)
      (fun a b => by simp only [Bool.or_eq_true, decide_eq_true_eq]; omega)
      allUtxos
    exact this.imp (by simp)
  refine ⟨hsorted, fun sel hok => ?_, fun e herr => ?_⟩
  · rw [sendBitcoinSelect, if_neg (by omega), if_neg (by simpa using not_le.mpr hfee),
      if_neg (by simpa using hne), finalizeSelection] at hok
    obtain ⟨k, hsel, hval⟩ := selectUtxosLoop_spec amountSats feeRate
      (allUtxos.mergeSort (fun a b => b.value ≤ a.value)) [] 0
    simp only [List.nil_append, Nat.zero_add] at hsel hval
    split at hok
    · rename_i hchange
      injection hok with hok
      subst hok
      dsimp only
      rw [hsel, hval] at hchange ⊢
      exact ⟨⟨k, rfl⟩, by omega, iff_of_true rfl (by omega), fun _ => rfl,
        fun h => absurd h (by simp), by omega⟩
    · rename_i hchange
      split at hok
      · exact absurd hok (by simp)
      · rename_i hnoneg
        injection hok with hok
        subst hok
        push_neg at hnoneg
        dsimp only
        rw [hsel, hval] at hchange hnoneg ⊢
        exact ⟨⟨k, rfl⟩, by omega, iff_of_false (by simp) (by omega),
          fun h => absurd h (by simp), fun _ => rfl, by omega⟩
  · rw [sendBitcoinSelect, if_neg (by omega), if_neg (by simpa using not_le.mpr hfee),
      if_neg (by simpa using hne), finalizeSelection] at herr
    split at herr
    · exact absurd herr (by simp)
    · split at herr
      · injection herr with herr
        exact herr.symm
      · exact absurd herr (by simp)

theorem send_bitcoin_coin_selection_witness :
    ([⟨"tx", 0, 1484⟩] : List SendUtxo) ≠ [] ∧ 0 < 1000 ∧ (0 : ℚ) < 1 ∧
    List.Pairwise (fun a b : SendUtxo => b.value ≤ a.value)
      (([⟨"tx", 0, 1484⟩] : List SendUtxo).mergeSort (fun a b => b.value ≤ a.value)) :=
  ⟨by simp, by norm_num, by norm_num,
    (send_bitcoin_coin_selection [⟨"tx", 0, 1484⟩] 1000 1 (by simp) (by norm_num)
      (by norm_num)).1⟩

/-! ### RS1024 linear-algebra infrastructure

`rs1024Step` is linear over GF(2): each output bit is an XOR of input
bits.  Single-symbol substitutions therefore propagate through the
polymod as a nonzero state difference, which the step function (an
injective linear map on the 30-bit state space) can never cancel. -/

theorem foldl_xor_init (f : Nat → Nat) (l : List Nat) :
    ∀ a : Nat, l.foldl (fun c i => c ^^^ f i) a = a ^^^ l.foldl (fun c i => c ^^^ f i) 0 := by
  induction l with
  | nil => intro a; simp
  | cons x t ih =>
    intro a
    simp only [List.foldl_cons]
    rw [ih (a ^^^ f x), ih (0 ^^^ f x), Nat.zero_xor, Nat.xor_assoc]

theorem rs1024Step_eq (chk v : Nat) :
    rs1024Step chk v = (((chk &&& 0xFFFFF) <<< 10) ^^^ v) ^^^ genFeedback (chk >>> 20) := by
  rw [rs1024Step, foldl_xor_init]
  rfl

theorem and_one_eq_one_iff_testBit (b i : Nat) :
    ((b >>> i) &&& 1 = 1) ↔ b.testBit i = true := by
  rw [Nat.and_one_is_mod, Nat.shiftRight_eq_div_pow, Nat.testBit_to_div_mod,
    decide_eq_true_eq]

theorem xor_xor_xor_comm (a b c d : Nat) :
    (a ^^^ b) ^^^ (c ^^^ d) = (a ^^^ c) ^^^ (b ^^^ d) := by
  apply Nat.eq_of_testBit_eq
  intro i
  simp only [Nat.testBit_xor]
  cases a.testBit i <;> cases b.testBit i <;> cases c.testBit i <;> cases d.testBit i <;> rfl

theorem foldl_xor_split (g h : Nat → Nat) (l : List Nat) :
    l.foldl (fun c i => c ^^^ (g i ^^^ h i)) 0 =
      l.foldl (fun c i => c ^^^ g i) 0 ^^^ l.foldl (fun c i => c ^^^ h i) 0 := by
  induction l with
  | nil => simp
  | cons x t ih =>
    simp only [List.foldl_cons, Nat.zero_xor]
    rw [foldl_xor_init _ t (g x ^^^ h x), foldl_xor_init _ t (g x), foldl_xor_init _ t (h x),
      ih, xor_xor_xor_comm]

theorem genFeedback_term_xor (b1 b2 i : Nat) :
    (if ((b1 ^^^ b2) >>> i) &&& 1 = 1 then RS1024_GEN.getD i 0 else 0) =
      (if (b1 >>> i) &&& 1 = 1 then RS1024_GEN.getD i 0 else 0) ^^^
      (if (b2 >>> i) &&& 1 = 1 then RS1024_GEN.getD i 0 else 0) := by
  simp only [and_one_eq_one_iff_testBit, Nat.testBit_xor]
  cases h1 : b1.testBit i <;> cases h2 : b2.testBit i <;>
    simp [Nat.xor_self, Nat.zero_xor, Nat.xor_zero]

theorem genFeedback_xor (b1 b2 : Nat) :
    genFeedback (b1 ^^^ b2) = genFeedback b1 ^^^ genFeedback b2 := by
  rw [genFeedback, genFeedback, genFeedback]
  simp only [genFeedback_term_xor]
  exact foldl_xor_split _ _ _

theorem shiftLeft_xor_distrib (a b n : Nat) : (a ^^^ b) <<< n = (a <<< n) ^^^ (b <<< n) := by
  apply Nat.eq_of_testBit_eq
  intro i
  simp only [Nat.testBit_shiftLeft, Nat.testBit_xor]
  cases h : decide (n ≤ i) <;> simp

theorem shiftRight_xor_distrib (a b n : Nat) : (a ^^^ b) >>> n = (a >>> n) ^^^ (b >>> n) := by
  apply Nat.eq_of_testBit_eq
  intro i
  simp only [Nat.testBit_shiftRight, Nat.testBit_xor]

theorem rs1024Step_linear (c1 c2 v1 v2 : Nat) :
    rs1024Step c1 v1 ^^^ rs1024Step c2 v2 = rs1024Step (c1 ^^^ c2) (v1 ^^^ v2) := by
  rw [rs1024Step_eq, rs1024Step_eq, rs1024Step_eq, Nat.and_xor_distrib_right,
    shiftLeft_xor_distrib, shiftRight_xor_distrib, genFeedback_xor, xor_xor_xor_comm,
    xor_xor_xor_comm ((c1 &&& 0xFFFFF) <<< 10)]

theorem rs1024Step_zero_left (v : Nat) : rs1024Step 0 v = v := by
  rw [rs1024Step_eq]
  simp [genFeedback]

theorem genFeedback_lt (b : Nat) : genFeedback b < 2 ^ 30 := by
  rw [genFeedback]
  have hgen : ∀ i, (if (b >>> i) &&& 1 = 1 then RS1024_GEN.getD i 0 else 0) < 2 ^ 30 := by
    intro i
    split
    · by_cases h : i < RS1024_GEN.length
      · rw [List.getD_eq_getElem _ _ h]
        exact (by decide : ∀ x ∈ RS1024_GEN, x < 2 ^ 30) _ (List.getElem_mem h)
      · rw [List.getD_eq_default _ _ (by omega)]
        decide
    · decide
  generalize List.range 10 = l
  induction l with
  | nil => norm_num
  | cons x t ih =>
    simp only [List.foldl_cons, Nat.zero_xor]
    rw [foldl_xor_init]
    exact Nat.xor_lt_two_pow (hgen x) ih

theorem rs1024Step_lt (chk v : Nat) (hv : v < 2 ^ 30) : rs1024Step chk v < 2 ^ 30 := by
  rw [rs1024Step_eq]
  refine Nat.xor_lt_two_pow (Nat.xor_lt_two_pow ?_ hv) (genFeedback_lt _)
  have h1 : chk &&& 0xFFFFF < 2 ^ 20 := by
    have := Nat.and_le_right (n := chk) (m := 0xFFFFF)
    omega
  calc (chk &&& 0xFFFFF) <<< 10 = (chk &&& 0xFFFFF) * 2 ^ 10 := Nat.shiftLeft_eq _ _
    _ < 2 ^ 20 * 2 ^ 10 := by
        exact Nat.mul_lt_mul_of_lt_of_le h1 (le_refl _) (by norm_num)
    _ = 2 ^ 30 := by norm_num

set_option maxRecDepth 100000 in
theorem genFeedback_low_bits : ∀ hi, hi < 1024 → genFeedback hi &&& 1023 = 0 → hi = 0 := by
  decide

theorem rs1024Step_zero_inj (d : Nat) (hd : d < 2 ^ 30) (h : rs1024Step d 0 = 0) : d = 0 := by
  rw [rs1024Step_eq, Nat.xor_zero] at h
  rw [Nat.xor_eq_zero] at h
  have hhi : d >>> 20 < 1024 := by
    rw [Nat.shiftRight_eq_div_pow]
    omega
  have hlow : genFeedback (d >>> 20) &&& 1023 = 0 := by
    rw [← h, Nat.shiftLeft_eq]
    have : (1023 : Nat) = 2 ^ 10 - 1 := by norm_num
    rw [this, Nat.and_pow_two_sub_one_eq_mod, Nat.mul_mod_left]
  have hz : d >>> 20 = 0 := genFeedback_low_bits _ hhi hlow
  rw [hz] at h
  have hfb0 : genFeedback 0 = 0 := by decide
  rw [hfb0, Nat.shiftLeft_eq] at h
  have hand : d &&& 0xFFFFF = 0 := by
    rcases Nat.mul_eq_zero.mp h with h' | h'
    · exact h'
    · norm_num at h'
  have hdlt : d < 2 ^ 20 := by
    rw [Nat.shiftRight_eq_div_pow] at hz
    omega
  have : (0xFFFFF : Nat) = 2 ^ 20 - 1 := by norm_num
  rw [this, Nat.and_pow_two_sub_one_eq_mod, Nat.mod_eq_of_lt hdlt] at hand
  exact hand

/-- A nonzero bounded state difference survives any run of further values
processed identically by both polymod computations. -/
theorem foldl_rs1024Step_replicate_zero_ne (k : Nat) :
    ∀ d, d ≠ 0 → d < 2 ^ 30 → (List.replicate k 0).foldl rs1024Step d ≠ 0 ∧
      (List.replicate k 0).foldl rs1024Step d < 2 ^ 30 := by
  induction k with
  | zero => exact fun d hne hlt => ⟨hne, hlt⟩
  | succ n ih =>
    intro d hne hlt
    rw [List.replicate_succ, List.foldl_cons]
    refine ih _ (fun h0 => hne (rs1024Step_zero_inj d hlt h0)) (rs1024Step_lt _ _ (by norm_num))

theorem foldl_rs1024Step_xor :
    ∀ (vs1 vs2 : List Nat), vs1.length = vs2.length → ∀ c1 c2 : Nat,
      vs1.foldl rs1024Step c1 ^^^ vs2.foldl rs1024Step c2 =
        (List.zipWith (· ^^^ ·) vs1 vs2).foldl rs1024Step (c1 ^^^ c2) := by
  intro vs1
  induction vs1 with
  | nil =>
    intro vs2 hlen c1 c2
    rw [List.length_nil] at hlen
    rw [List.eq_nil_of_length_eq_zero hlen.symm]
    rfl
  | cons v1 t1 ih =>
    intro vs2 hlen c1 c2
    cases vs2 with
    | nil => simp at hlen
    | cons v2 t2 =>
      simp only [List.length_cons, Nat.succ.injEq] at hlen
      simp only [List.zipWith_cons_cons, List.foldl_cons]
      rw [ih t2 hlen, rs1024Step_linear]

theorem zipWith_xor_self : ∀ l : List Nat,
    List.zipWith (· ^^^ ·) l l = List.replicate l.length 0 := by
  intro l
  induction l with
  | nil => rfl
  | cons x t ih =>
    simp only [List.zipWith_cons_cons, List.length_cons, List.replicate_succ, Nat.xor_self]
    rw [ih]

/-- Single-symbol substitution detection: changing one value (below `2^30`)
in a polymod input always changes the polymod. -/
theorem rs1024Polymod_single_substitution (pre suf : List Nat) (v v' : Nat)
    (hv : v < 2 ^ 30) (hv' : v' < 2 ^ 30) (hne : v ≠ v') :
    rs1024Polymod (pre ++ v :: suf) ≠ rs1024Polymod (pre ++ v' :: suf) := by
  intro heq
  rw [rs1024Polymod, rs1024Polymod, List.foldl_append, List.foldl_append] at heq
  have hxor := Nat.xor_eq_zero.mpr heq
  rw [List.foldl_cons, List.foldl_cons,
    foldl_rs1024Step_xor suf suf rfl, zipWith_xor_self, rs1024Step_linear,
    Nat.xor_self, rs1024Step_zero_left] at hxor
  have hd : v ^^^ v' ≠ 0 := fun h => hne (Nat.xor_eq_zero.mp h)
  exact (foldl_rs1024Step_replicate_zero_ne _ _ hd (Nat.xor_lt_two_pow hv hv')).1 hxor

/-! ### Wordlist facts: the 1024 entries are distinct, lower-case words -/

theorem natListLtB_irrefl : ∀ l : List Nat, natListLtB l l = false := by
  intro l
  induction l with
  | nil => rfl
  | cons a as ih => simp [natListLtB, ih]

theorem natListLtB_trans : ∀ a b c : List Nat,
    natListLtB a b = true → natListLtB b c = true → natListLtB a c = true := by
  intro a
  induction a with
  | nil =>
    intro b c hab hbc
    cases b with
    | nil => exact absurd hab (by simp [natListLtB])
    | cons y ys =>
      cases c with
      | nil => exact absurd hbc (by simp [natListLtB])
      | cons z zs => simp [natListLtB]
  | cons x xs ih =>
    intro b c hab hbc
    cases b with
    | nil => exact absurd hab (by simp [natListLtB])
    | cons y ys =>
      cases c with
      | nil => exact absurd hbc (by simp [natListLtB])
      | cons z zs =>
        simp only [natListLtB, Bool.or_eq_true, Bool.and_eq_true, decide_eq_true_eq,
          beq_iff_eq] at hab hbc ⊢
        rcases hab with h1 | ⟨h1, h1'⟩ <;> rcases hbc with h2 | ⟨h2, h2'⟩
        · exact Or.inl (by omega)
        · exact Or.inl (by omega)
        · exact Or.inl (by omega)
        · exact Or.inr ⟨by omega, ih ys zs h1' h2'⟩

theorem strLtB_trans (a b c : String) (hab : strLtB a b = true) (hbc : strLtB b c = true) :
    strLtB a c = true :=
  natListLtB_trans _ _ _ hab hbc

theorem strLtB_ne (a b : String) (h : strLtB a b = true) : a ≠ b := by
  intro heq
  subst heq
  rw [strLtB, natListLtB_irrefl] at h
  exact absurd h (by simp)

theorem chainLtB_cons (x : String) (l : List String) (h : chainLtB (x :: l) = true) :
    chainLtB l = true := by
  cases l with
  | nil => rfl
  | cons y t => exact (Bool.and_eq_true _ _ |>.mp h).2

theorem chainLtB_head_lt : ∀ (l : List String) (x : String), chainLtB (x :: l) = true →
    ∀ y ∈ l, strLtB x y = true := by
  intro l
  induction l with
  | nil => intro x _ y hy; exact absurd hy (by simp)
  | cons z t ih =>
    intro x hchain y hy
    have hxz : strLtB x z = true := (Bool.and_eq_true _ _ |>.mp hchain).1
    rcases List.mem_cons.mp hy with rfl | hyt
    · exact hxz
    · exact strLtB_trans _ _ _ hxz (ih z (chainLtB_cons x (z :: t) hchain) y hyt)

theorem chainLtB_nodup : ∀ l : List String, chainLtB l = true → l.Nodup := by
  intro l
  induction l with
  | nil => intro _; exact List.nodup_nil
  | cons x t ih =>
    intro hchain
    refine List.Nodup.cons ?_ (ih (chainLtB_cons _ _ hchain))
    intro hmem
    exact strLtB_ne x x (chainLtB_head_lt t x hchain x hmem) rfl

set_option maxRecDepth 100000 in
theorem wordlist_chain : chainLtB SLIP39_WORDLIST = true := by decide

theorem wordlist_nodup : SLIP39_WORDLIST.Nodup := chainLtB_nodup _ wordlist_chain

set_option maxRecDepth 100000 in
theorem wordlist_length : SLIP39_WORDLIST.length = 1024 := by decide

set_option maxRecDepth 100000 in
theorem wordlist_chars :
    (SLIP39_WORDLIST.all (fun w => w.data.all (fun c => 90 < c.toNat))) = true := by decide

theorem char_toLower_of_gt90 (c : Char) (h : 90 < c.toNat) : c.toLower = c := by
  rw [Char.toLower, if_neg]
  omega

theorem jsToLower_fixed (w : String) (hw : ∀ c ∈ w.data, 90 < c.toNat) : jsToLower w = w := by
  rw [jsToLower]
  have : w.data.map Char.toLower = w.data := by
    rw [List.map_congr_left (fun c hc => char_toLower_of_gt90 c (hw c hc))]
    exact List.map_id _
  rw [this]

theorem wordlist_lower (w : String) (hw : w ∈ SLIP39_WORDLIST) : jsToLower w = w := by
  refine jsToLower_fixed w (fun c hc => ?_)
  have h1 := List.all_eq_true.mp wordlist_chars w hw
  have h2 := List.all_eq_true.mp h1 c hc
  simpa using h2

theorem wordToIndex_of_mem (w : String) (hw : w ∈ SLIP39_WORDLIST) :
    wordToIndex w = some (SLIP39_WORDLIST.indexOf w) ∧ SLIP39_WORDLIST.indexOf w < 1024 := by
  have hlt : SLIP39_WORDLIST.indexOf w < SLIP39_WORDLIST.length := List.indexOf_lt_length.mpr hw
  constructor
  · rw [wordToIndex]
    simp only [hlt, if_pos]
  · rw [wordlist_length] at hlt
    exact hlt

theorem wordToIndex_inj (w1 w2 : String) (h1 : w1 ∈ SLIP39_WORDLIST) (h2 : w2 ∈ SLIP39_WORDLIST)
    (hne : w1 ≠ w2) : SLIP39_WORDLIST.indexOf w1 ≠ SLIP39_WORDLIST.indexOf w2 := by
  intro heq
  apply hne
  have e1 := List.indexOf_get (a := w1) (l := SLIP39_WORDLIST) (List.indexOf_lt_length.mpr h1)
  have e2 := List.indexOf_get (a := w2) (l := SLIP39_WORDLIST) (List.indexOf_lt_length.mpr h2)
  rw [← e1, ← e2]
  congr 1
  exact Fin.ext heq

theorem wordToIndex_getElem (i : Nat) (hi : i < 1024) :
    wordToIndex (SLIP39_WORDLIST.getD i "") = some i := by
  have hlen : i < SLIP39_WORDLIST.length := by rw [wordlist_length]; exact hi
  rw [List.getD_eq_getElem _ _ hlen, wordToIndex]
  have : SLIP39_WORDLIST.indexOf SLIP39_WORDLIST[i] = i :=
    List.indexOf_getElem wordlist_nodup i hlen
  simp only [this, hlen, if_pos]

set_option maxRecDepth 100000 in
/-- The XOR of the polymod states after the two customization prefixes
(`"shamir"` and `"shamir_extendable"`). -/
theorem shamir_state_xor :
    rs1024Polymod (customizationValues "shamir") ^^^
      rs1024Polymod (customizationValues "shamir_extendable") = 860527491 := by decide

set_option maxRecDepth 100000 in
/-- Two RS1024 steps from the XOR state `860527491` of the two
customization prefixes — first a zero (the unchanged word-index difference
at position 0), then any difference value `d` with bit 4 set (a flip of the
`extendable` flag in word 1) — never reach zero.  Decided exhaustively over
the 512 difference values. -/
theorem extendable_flip_step_ne :
    ∀ d, d < 1024 → d.testBit 4 = true →
      rs1024Step (rs1024Step 860527491 0) d ≠ 0 := by
  decide

/-- Even a substitution at word index 1 that flips the `extendable` flag
(changing the checksum customization string) is always detected: the XOR of
the two prefix states (`shamir_state_xor`), propagated over the remaining
positions, never reaches zero, for either mnemonic length and any flipped
second word. -/
theorem extendable_flip_detected :
    ∀ d, d < 1024 → d.testBit 4 = true →
      List.foldl rs1024Step 860527491 (0 :: d :: List.replicate 18 0) ≠ 0 ∧
      List.foldl rs1024Step 860527491 (0 :: d :: List.replicate 31 0) ≠ 0 := by
  intro d hd hbit
  have hlt : rs1024Step (rs1024Step 860527491 0) d < 2 ^ 30 :=
    rs1024Step_lt _ _ (lt_of_lt_of_le hd (by norm_num))
  constructor <;>
  · rw [List.foldl_cons, List.foldl_cons]
    exact (foldl_rs1024Step_replicate_zero_ne _ _
      (extendable_flip_step_ne d hd hbit) hlt).1

/-- On a word list of valid length whose entries are vocabulary words,
`validateMnemonic` reduces to the RS1024 verification of the word-index
list under the customization selected by the extendable bit. -/
theorem validateMnemonic_eq_of_vocab (words : List String)
    (hw : ∀ w ∈ words, w ∈ SLIP39_WORDLIST)
    (hlen : words.length = 20 ∨ words.length = 33) :
    validateMnemonic words =
      rs1024VerifyChecksum
        (if (((words.map (fun w => SLIP39_WORDLIST.indexOf w)).getD 1 0 >>> 4) &&& 1 == 1) = true
         then "shamir_extendable" else "shamir")
        (words.map (fun w => SLIP39_WORDLIST.indexOf w)) := by
  have hmap : words.map (fun w => (wordToIndex (jsToLower w)).getD 0) =
      words.map (fun w => SLIP39_WORDLIST.indexOf w) := by
    refine List.map_congr_left (fun w hmem => ?_)
    rw [wordlist_lower w (hw w hmem), (wordToIndex_of_mem w (hw w hmem)).1]
    rfl
  rw [validateMnemonic, if_neg (by rcases hlen with h | h <;> simp [h])]
  rw [if_neg]
  · rw [hmap]
  · rw [Classical.not_not, List.all_eq_true]
    intro w hmem
    rw [wordlist_lower w (hw w hmem), (wordToIndex_of_mem w (hw w hmem)).1]
    rfl

theorem and_one_beq_eq_testBit (b i : Nat) : ((b >>> i) &&& 1 == 1) = b.testBit i := by
  have hiff := and_one_eq_one_iff_testBit b i
  rcases h : b.testBit i
  · rw [h] at hiff
    simp only [Bool.false_eq_true, iff_false] at hiff
    exact beq_eq_false_iff_ne.mpr hiff
  · rw [h] at hiff
    simp only [iff_true] at hiff
    rw [hiff]
    rfl

/-- C8: for every mnemonic accepted by `validateMnemonic` whose words are
vocabulary entries, replacing any single word by a different vocabulary
word yields a mnemonic that `validateMnemonic` rejects: RS1024 detects all
single-word substitution errors, including substitutions at word index 1
that flip the extendable flag and hence the checksum customization. -/
theorem rs1024_detects_single_word_substitution
    (words : List String) (hw : ∀ w ∈ words, w ∈ SLIP39_WORDLIST)
    (hvalid : validateMnemonic words = true)
    (j : Nat) (hj : j < words.length)
    (w' : String) (hw' : w' ∈ SLIP39_WORDLIST)
    (hne : w' ≠ words[j]) :
    validateMnemonic (words.set j w') = false := by
  -- length of the original mnemonic
  have hlen : words.length = 20 ∨ words.length = 33 := by
    by_contra h
    push_neg at h
    rw [validateMnemonic, if_pos h] at hvalid
    exact absurd hvalid (by simp)
  have hw2 : ∀ w ∈ words.set j w', w ∈ SLIP39_WORDLIST := by
    intro w hmem
    rcases List.mem_or_eq_of_mem_set hmem with h | rfl
    · exact hw w h
    · exact hw'
  have hlen2 : (words.set j w').length = 20 ∨ (words.set j w').length = 33 := by
    rw [List.length_set]; exact hlen
  -- word-index lists
  set idx := words.map (fun w => SLIP39_WORDLIST.indexOf w) with hidx
  have hidxlen : idx.length = words.length := List.length_map _ _
  have hidx' : (words.set j w').map (fun w => SLIP39_WORDLIST.indexOf w) =
      idx.set j (SLIP39_WORDLIST.indexOf w') := List.map_set
  have hjidx : j < idx.length := by omega
  have hgetj : idx[j] = SLIP39_WORDLIST.indexOf words[j] := List.getElem_map _
  have hmemj : words[j] ∈ SLIP39_WORDLIST := hw _ (List.getElem_mem hj)
  have hrne : SLIP39_WORDLIST.indexOf w' ≠ idx[j] := by
    rw [hgetj]
    exact wordToIndex_inj w' _ hw' hmemj hne
  have hidxlt : ∀ i ∈ idx, i < 1024 := by
    intro i hmem
    rw [hidx] at hmem
    obtain ⟨w, hwm, rfl⟩ := List.mem_map.mp hmem
    exact (wordToIndex_of_mem w (hw w hwm)).2
  have hrlt : SLIP39_WORDLIST.indexOf w' < 1024 := (wordToIndex_of_mem w' hw').2
  -- rewrite both validations, normalising the extendable bit to `testBit`
  rw [validateMnemonic_eq_of_vocab words hw hlen, ← hidx] at hvalid
  rw [validateMnemonic_eq_of_vocab _ hw2 hlen2, hidx']
  rw [rs1024VerifyChecksum, beq_iff_eq] at hvalid
  rw [rs1024VerifyChecksum, beq_eq_false_iff_ne]
  rw [and_one_beq_eq_testBit] at hvalid ⊢
  intro hvalid2
  by_cases hbit : ((idx.set j (SLIP39_WORDLIST.indexOf w')).getD 1 0).testBit 4 =
      (idx.getD 1 0).testBit 4
  · -- customization unchanged: plain single-symbol substitution
    rw [hbit] at hvalid2
    have hdec : idx = idx.take j ++ idx[j] :: idx.drop (j + 1) := by
      conv_lhs => rw [← List.take_append_drop j idx, List.drop_eq_getElem_cons hjidx]
    have hdec' : idx.set j (SLIP39_WORDLIST.indexOf w') =
        idx.take j ++ SLIP39_WORDLIST.indexOf w' :: idx.drop (j + 1) :=
      List.set_eq_take_cons_drop _ hjidx
    apply rs1024Polymod_single_substitution
      (customizationValues (if (idx.getD 1 0).testBit 4 = true
          then "shamir_extendable" else "shamir") ++ idx.take j)
      (idx.drop (j + 1)) idx[j] (SLIP39_WORDLIST.indexOf w')
      (by have := hidxlt idx[j] (List.getElem_mem hjidx); omega)
      (by omega)
      (fun h => hrne h.symm)
    rw [List.append_assoc, List.append_assoc, ← hdec, ← hdec']
    rw [hvalid, hvalid2]
  · -- the extendable flag flipped: only possible at j = 1
    have hj1 : j = 1 := by
      by_contra hj1
      apply hbit
      have hsame : (idx.set j (SLIP39_WORDLIST.indexOf w')).getD 1 0 = idx.getD 1 0 := by
        rw [List.getD, List.get?_eq_getElem?, List.getElem?_set_ne hj1,
          ← List.get?_eq_getElem?, List.getD]
      rw [hsame]
    subst hj1
    -- expose the first two entries
    have hne0 : idx ≠ [] := by
      intro h
      rw [h] at hjidx
      simp at hjidx
    obtain ⟨i0, t, hcons⟩ := List.exists_cons_of_ne_nil hne0
    have htne : t ≠ [] := by
      intro h
      rw [hcons, h] at hjidx
      simp at hjidx
    obtain ⟨y, rest, hcons2⟩ := List.exists_cons_of_ne_nil htne
    have hsplit : idx = i0 :: y :: rest := by rw [hcons, hcons2]
    set r := SLIP39_WORDLIST.indexOf w' with hr
    have hset : idx.set 1 r = i0 :: r :: rest := by rw [hsplit]; rfl
    have hylt : y < 1024 := hidxlt y (by rw [hsplit]; simp)
    have hrestlen : rest.length = words.length - 2 := by
      have h := hidxlen
      rw [hsplit] at h
      simp only [List.length_cons] at h
      omega
    have hgy : idx.getD 1 0 = y := by rw [hsplit]; rfl
    have hgr : (idx.set 1 r).getD 1 0 = r := by rw [hset]; rfl
    rw [hgy] at hvalid hbit
    rw [hgr] at hvalid2 hbit
    -- the difference has bit 4 set
    have htb : (y ^^^ r).testBit 4 = true := by
      rw [Nat.testBit_xor]
      rcases hy4 : y.testBit 4 <;> rcases hr4 : r.testBit 4 <;> simp_all
    have hdlt : y ^^^ r < 1024 := by
      have h10 : (1024 : Nat) = 2 ^ 10 := by norm_num
      rw [h10]
      exact Nat.xor_lt_two_pow (by omega) (by omega)
    -- the XOR of the two polymods is the propagated prefix-state difference
    have hxor0 : rs1024Polymod
          ((customizationValues (if y.testBit 4 = true
              then "shamir_extendable" else "shamir")) ++ idx) ^^^
        rs1024Polymod
          ((customizationValues (if r.testBit 4 = true
              then "shamir_extendable" else "shamir")) ++ idx.set 1 r) = 0 := by
      rw [hvalid, hvalid2, Nat.xor_self]
    rw [rs1024Polymod, rs1024Polymod, List.foldl_append, List.foldl_append] at hxor0
    rw [hset, hsplit] at hxor0
    rw [foldl_rs1024Step_xor (i0 :: y :: rest) (i0 :: r :: rest) rfl] at hxor0
    rw [List.zipWith_cons_cons, List.zipWith_cons_cons, zipWith_xor_self, Nat.xor_self] at hxor0
    -- identify the prefix-state difference with the decided constant
    have hflip := extendable_flip_detected (y ^^^ r) hdlt htb
    rcases hy4 : y.testBit 4 <;> rcases hr4 : r.testBit 4
    · exact hbit (by rw [hy4, hr4])
    · rw [if_neg (by rw [hy4]; simp), if_pos (by rw [hr4])] at hxor0
      rw [← rs1024Polymod, ← rs1024Polymod, shamir_state_xor] at hxor0
      rcases hlen with h20 | h33
      · rw [show rest.length = 18 by omega] at hxor0
        exact hflip.1 hxor0
      · rw [show rest.length = 31 by omega] at hxor0
        exact hflip.2 hxor0
    · rw [if_pos (by rw [hy4]), if_neg (by rw [hr4]; simp)] at hxor0
      rw [Nat.xor_comm (List.foldl rs1024Step 1 (customizationValues "shamir_extendable"))] at hxor0
      rw [← rs1024Polymod, ← rs1024Polymod, shamir_state_xor] at hxor0
      rcases hlen with h20 | h33
      · rw [show rest.length = 18 by omega] at hxor0
        exact hflip.1 hxor0
      · rw [show rest.length = 31 by omega] at hxor0
        exact hflip.2 hxor0
    · exact hbit (by rw [hy4, hr4])

set_option maxRecDepth 1000000 in
theorem rs1024_detects_single_word_substitution_witness :
    validateMnemonic sampleMnemonic = true ∧
    validateMnemonic (sampleMnemonic.set 0 "acid") = false := by
  refine ⟨by decide, ?_⟩
  exact rs1024_detects_single_word_substitution sampleMnemonic (by decide) (by decide) 0
    (by decide) "acid" (by decide) (by decide)

/-! ### Base-conversion lemmas -/

theorem bigEndianDigits_length (base : Nat) : ∀ (k v : Nat), (bigEndianDigits base k v).length = k := by
  intro k
  induction k with
  | zero => intro v; rfl
  | succ n ih =>
    intro v
    rw [bigEndianDigits, List.length_append, ih]
    simp

theorem bigEndianDigits_lt (base : Nat) (hb : 0 < base) :
    ∀ (k v : Nat), ∀ d ∈ bigEndianDigits base k v, d < base := by
  intro k
  induction k with
  | zero => intro v d hd; exact absurd hd (by simp [bigEndianDigits])
  | succ n ih =>
    intro v d hd
    rw [bigEndianDigits] at hd
    rcases List.mem_append.mp hd with h | h
    · exact ih _ d h
    · rw [List.mem_singleton.mp h]
      exact Nat.mod_lt _ hb

theorem foldl_bigEndianDigits (base : Nat) (hb : 0 < base) :
    ∀ (k v a : Nat),
      List.foldl (fun acc d => acc * base + d) a (bigEndianDigits base k v) =
        a * base ^ k + v % base ^ k := by
  intro k
  induction k with
  | zero => intro v a; simp [bigEndianDigits, Nat.mod_one]
  | succ n ih =>
    intro v a
    rw [bigEndianDigits, List.foldl_append, ih]
    simp only [List.foldl_cons, List.foldl_nil]
    have hmod : v % base ^ (n + 1) = v % base + base * (v / base % base ^ n) := by
      rw [pow_succ, Nat.mul_comm (base ^ n) base, Nat.mod_mul]
    rw [hmod]
    ring

theorem wordsToInt_bigEndianDigits (k v : Nat) (hv : v < 1024 ^ k) :
    wordsToInt (bigEndianDigits 1024 k v) = v := by
  rw [wordsToInt, foldl_bigEndianDigits 1024 (by norm_num), Nat.zero_mul, Nat.zero_add,
    Nat.mod_eq_of_lt hv]

theorem bytesToInt_eq_foldl (l : List Nat) :
    bytesToInt l = l.foldl (fun acc b => acc * 256 + b) 0 := by
  rw [bytesToInt]
  suffices h : ∀ a, l.foldl (fun acc b => (acc <<< 8) + b) a =
      l.foldl (fun acc b => acc * 256 + b) a from h 0
  induction l with
  | nil => intro a; rfl
  | cons x t ih =>
    intro a
    simp only [List.foldl_cons]
    rw [Nat.shiftLeft_eq]
    norm_num [ih]

theorem bytesToInt_lt (l : List Nat) (hl : ∀ b ∈ l, b < 256) :
    bytesToInt l < 256 ^ l.length := by
  rw [bytesToInt_eq_foldl]
  suffices h : ∀ a, l.foldl (fun acc b => acc * 256 + b) a < (a + 1) * 256 ^ l.length by
    have := h 0
    simpa using this
  induction l with
  | nil => intro a; simp
  | cons x t ih =>
    intro a
    simp only [List.foldl_cons, List.length_cons]
    have hx : x < 256 := hl x (List.mem_cons_self _ _)
    have ht : ∀ b ∈ t, b < 256 := fun b hb => hl b (List.mem_cons_of_mem _ hb)
    calc List.foldl (fun acc b => acc * 256 + b) (a * 256 + x) t
        < (a * 256 + x + 1) * 256 ^ t.length := by
          exact ih ht (a * 256 + x)
      _ ≤ (a + 1) * 256 ^ (t.length + 1) := by
          rw [pow_succ]
          have : a * 256 + x + 1 ≤ (a + 1) * 256 := by omega
          calc (a * 256 + x + 1) * 256 ^ t.length ≤ (a + 1) * 256 * 256 ^ t.length :=
                Nat.mul_le_mul_right _ this
            _ = (a + 1) * (256 ^ t.length * 256) := by ring
      _ = (a + 1) * 256 ^ (t.length + 1) := by rw [pow_succ]

theorem bigEndianDigits_bytesToInt (l : List Nat) (hl : ∀ b ∈ l, b < 256) :
    bigEndianDigits 256 l.length (bytesToInt l) = l := by
  rw [bytesToInt_eq_foldl]
  induction l using List.reverseRecOn with
  | nil => rfl
  | append_singleton t b ih =>
    have hb : b < 256 := hl b (by simp)
    have ht : ∀ x ∈ t, x < 256 := fun x hx => hl x (by simp [hx])
    rw [List.length_append, List.length_singleton, List.foldl_append]
    simp only [List.foldl_cons, List.foldl_nil]
    rw [bigEndianDigits]
    have hfold : List.foldl (fun acc b => acc * 256 + b) 0 t * 256 + b = 
        (List.foldl (fun acc b => acc * 256 + b) 0 t) * 256 + b := rfl
    have hdiv : (List.foldl (fun acc b => acc * 256 + b) 0 t * 256 + b) / 256 =
        List.foldl (fun acc b => acc * 256 + b) 0 t := by omega
    have hmod : (List.foldl (fun acc b => acc * 256 + b) 0 t * 256 + b) % 256 = b := by omega
    rw [hdiv, hmod, ih ht]

/-! ### Metadata bit-packing lemmas -/

theorem testBit_eq_false_of_lt_pow {x n i : Nat} (hx : x < 2 ^ n) (hn : n ≤ i) :
    x.testBit i = false := by
  apply Nat.testBit_lt_two_pow
  calc x < 2 ^ n := hx
    _ ≤ 2 ^ i := Nat.pow_le_pow_right (by norm_num) hn

theorem identifier_roundtrip (id : Nat) (h : id < 32768) :
    ((((id >>> 5) &&& 1023) <<< 5) ||| ((((id &&& 31) <<< 5) >>> 5) &&& 31)) &&& 32767 = id := by
  have h31 : (31 : Nat) = 2 ^ 5 - 1 := by norm_num
  have h1023 : (1023 : Nat) = 2 ^ 10 - 1 := by norm_num
  have h32767 : (32767 : Nat) = 2 ^ 15 - 1 := by norm_num
  have hcancel : ((id &&& 31) <<< 5) >>> 5 = id &&& 31 := by
    rw [Nat.shiftLeft_eq, Nat.shiftRight_eq_div_pow, Nat.mul_div_cancel _ (by norm_num)]
  rw [hcancel, Nat.and_assoc]
  have hid31 : (31 : Nat) &&& 31 = 31 := by decide
  rw [hid31]
  apply Nat.eq_of_testBit_eq
  intro i
  rw [h31, h1023, h32767]
  simp only [Nat.testBit_and, Nat.testBit_or, Nat.testBit_shiftLeft, Nat.testBit_shiftRight,
    Nat.testBit_two_pow_sub_one]
  rcases Nat.lt_or_ge i 5 with h5 | h5
  · have : decide (5 ≤ i) = false := by simp; omega
    rw [this]
    simp only [Bool.false_and, Bool.false_or]
    have h15 : decide (i < 15) = true := by simp; omega
    have h5' : decide (i < 5) = true := by simp; omega
    rw [h15, h5']
    simp
  · rcases Nat.lt_or_ge i 15 with h15 | h15
    · have hd5 : decide (5 ≤ i) = true := by simp; omega
      have hd15 : decide (i < 15) = true := by simp; omega
      have hd5' : decide (i < 5) = false := by simp; omega
      have hd10 : decide (i - 5 < 10) = true := by simp; omega
      have hplus : 5 + (i - 5) = i := by omega
      rw [hd5, hd15, hd5', hd10, hplus]
      simp
    · have hd15 : decide (i < 15) = false := by simp; omega
      rw [hd15]
      have : id.testBit i = false := testBit_eq_false_of_lt_pow (by norm_num at h ⊢; omega) h15
      rw [this]
      simp

theorem shifted_low_bit_zero (a i : Nat) (hi : i < 5) : (((a &&& 31) <<< 5) >>> i) &&& 1 = 0 := by
  rw [Nat.shiftLeft_eq, Nat.shiftRight_eq_div_pow, Nat.and_one_is_mod]
  have h32 : (2 : Nat) ^ 5 = 32 := by norm_num
  rw [h32]
  interval_cases i <;> omega

theorem shifted_low_mask_zero (a : Nat) : ((a &&& 31) <<< 5) &&& 15 = 0 := by
  rw [Nat.shiftLeft_eq]
  have h15 : (15 : Nat) = 2 ^ 4 - 1 := by norm_num
  rw [h15, Nat.and_pow_two_sub_one_eq_mod]
  omega

/-! ### Word-index mapping lemmas -/

theorem wordlist_getD_mem (i : Nat) (hi : i < 1024) : SLIP39_WORDLIST.getD i "" ∈ SLIP39_WORDLIST := by
  have hlen : i < SLIP39_WORDLIST.length := by rw [wordlist_length]; exact hi
  rw [List.getD_eq_getElem _ _ hlen]
  exact List.getElem_mem hlen

set_option maxRecDepth 100000 in
theorem wordIndicesOf_map_getD (idxs : List Nat) (h : ∀ i ∈ idxs, i < 1024) :
    wordIndicesOf (idxs.map (fun i => SLIP39_WORDLIST.getD i "")) = some idxs := by
  induction idxs with
  | nil => rfl
  | cons i t ih =>
    have hi : i < 1024 := h i (List.mem_cons_self _ _)
    have ht : ∀ x ∈ t, x < 1024 := fun x hx => h x (List.mem_cons_of_mem _ hx)
    simp only [List.map_cons, wordIndicesOf]
    rw [wordlist_lower _ (wordlist_getD_mem i hi), wordToIndex_getElem i hi, ih ht]

/-! ### Feistel-cipher round-trip lemmas -/

theorem xorHalf_length (half : Nat) (L F : List Nat) : (xorHalf half L F).length = half := by
  rw [xorHalf, List.length_map, List.length_range]

theorem xorHalf_getD (half : Nat) (L F : List Nat) (j : Nat) (hj : j < half) :
    (xorHalf half L F).getD j 0 = L.getD j 0 ^^^ F.getD j 0 := by
  rw [xorHalf]
  have hj' : j < (List.range half).length := by rw [List.length_range]; exact hj
  rw [List.getD_eq_getElem _ _ (by rw [List.length_map]; exact hj')]
  rw [List.getElem_map]
  rw [List.getElem_range]

theorem list_eq_of_getD (A B : List Nat) (hA : A.length = B.length)
    (h : ∀ j, j < A.length → A.getD j 0 = B.getD j 0) : A = B := by
  apply List.ext_getElem hA
  intro j hjA hjB
  have := h j hjA
  rwa [List.getD_eq_getElem _ _ hjA, List.getD_eq_getElem _ _ hjB] at this

theorem xorHalf_xorHalf (half : Nat) (L F : List Nat) (hL : L.length = half) :
    xorHalf half (xorHalf half L F) F = L := by
  apply list_eq_of_getD
  · rw [xorHalf_length, hL]
  · intro j hj
    rw [xorHalf_length] at hj
    rw [xorHalf_getD _ _ _ _ hj, xorHalf_getD _ _ _ _ hj]
    rw [Nat.xor_assoc, Nat.xor_self, Nat.xor_zero]

theorem xorHalf_lt (half : Nat) (L F : List Nat) (hL : ∀ b ∈ L, b < 256)
    (hF : ∀ b ∈ F, b < 256) : ∀ b ∈ xorHalf half L F, b < 256 := by
  intro b hb
  rw [xorHalf, List.mem_map] at hb
  obtain ⟨j, _, rfl⟩ := hb
  have hgl : L.getD j 0 < 256 := by
    by_cases h : j < L.length
    · rw [List.getD_eq_getElem _ _ h]
      exact hL _ (List.getElem_mem h)
    · rw [List.getD_eq_default _ _ (by omega)]
      norm_num
  have hgf : F.getD j 0 < 256 := by
    by_cases h : j < F.length
    · rw [List.getD_eq_getElem _ _ h]
      exact hF _ (List.getElem_mem h)
    · rw [List.getD_eq_default _ _ (by omega)]
      norm_num
  have h256 : (256 : Nat) = 2 ^ 8 := by norm_num
  rw [h256] at hgl hgf ⊢
  exact Nat.xor_lt_two_pow hgl hgf

theorem feistelRounds_cons (pbkdf2F : List Nat → List Nat → Nat → Nat → List Nat)
    (i : Nat) (rounds : List Nat) (passphrase : List Nat) (iterationExponent : Nat)
    (salt : List Nat) (half : Nat) (L R : List Nat) :
    feistelRounds pbkdf2F (i :: rounds) passphrase iterationExponent salt half L R =
      feistelRounds pbkdf2F rounds passphrase iterationExponent salt half R
        (xorHalf half L (feistelRound pbkdf2F i passphrase iterationExponent salt R)) := rfl

theorem feistelRounds_append_single (pbkdf2F : List Nat → List Nat → Nat → Nat → List Nat)
    (rounds : List Nat) (i : Nat) (passphrase : List Nat) (iterationExponent : Nat)
    (salt : List Nat) (half : Nat) (L R : List Nat) :
    feistelRounds pbkdf2F (rounds ++ [i]) passphrase iterationExponent salt half L R =
      ((feistelRounds pbkdf2F rounds passphrase iterationExponent salt half L R).2,
        xorHalf half (feistelRounds pbkdf2F rounds passphrase iterationExponent salt half L R).1
          (feistelRound pbkdf2F i passphrase iterationExponent salt
            (feistelRounds pbkdf2F rounds passphrase iterationExponent salt half L R).2)) := by
  rw [feistelRounds, List.foldl_append]
  rfl

theorem feistelRounds_lengths (pbkdf2F : List Nat → List Nat → Nat → Nat → List Nat)
    (rounds : List Nat) (passphrase : List Nat) (iterationExponent : Nat)
    (salt : List Nat) (half : Nat) :
    ∀ (L R : List Nat), L.length = half → R.length = half →
      (feistelRounds pbkdf2F rounds passphrase iterationExponent salt half L R).1.length = half ∧
      (feistelRounds pbkdf2F rounds passphrase iterationExponent salt half L R).2.length = half := by
  induction rounds with
  | nil => intro L R hL hR; exact ⟨hL, hR⟩
  | cons i t ih =>
    intro L R hL hR
    rw [feistelRounds_cons]
    exact ih _ _ hR (xorHalf_length _ _ _)

theorem feistelRounds_reverse_inv (pbkdf2F : List Nat → List Nat → Nat → Nat → List Nat)
    (passphrase : List Nat) (iterationExponent : Nat) (salt : List Nat) (half : Nat)
    (rounds : List Nat) :
    ∀ (L R : List Nat), L.length = half → R.length = half →
      feistelRounds pbkdf2F rounds.reverse passphrase iterationExponent salt half
        (feistelRounds pbkdf2F rounds passphrase iterationExponent salt half L R).2
        (feistelRounds pbkdf2F rounds passphrase iterationExponent salt half L R).1 = (R, L) := by
  induction rounds using List.reverseRecOn with
  | nil => intro L R hL hR; rfl
  | append_singleton rs i ih =>
    intro L R hL hR
    rw [List.reverse_append, List.reverse_singleton, List.singleton_append]
    rw [feistelRounds_append_single]
    rw [feistelRounds_cons]
    rw [xorHalf_xorHalf _ _ _ (feistelRounds_lengths pbkdf2F rs _ _ _ _ L R hL hR).1]
    exact ih L R hL hR

theorem feistelRounds_bytes (pbkdf2F : List Nat → List Nat → Nat → Nat → List Nat)
    (HFbytes : ∀ inp salt c n, ∀ b ∈ pbkdf2F inp salt c n, b < 256)
    (passphrase : List Nat) (iterationExponent : Nat) (salt : List Nat) (half : Nat)
    (rounds : List Nat) :
    ∀ (L R : List Nat), (∀ b ∈ L, b < 256) → (∀ b ∈ R, b < 256) →
      (∀ b ∈ (feistelRounds pbkdf2F rounds passphrase iterationExponent salt half L R).1, b < 256) ∧
      (∀ b ∈ (feistelRounds pbkdf2F rounds passphrase iterationExponent salt half L R).2, b < 256) := by
  induction rounds with
  | nil => intro L R hL hR; exact ⟨hL, hR⟩
  | cons i t ih =>
    intro L R hL hR
    rw [feistelRounds_cons]
    exact ih _ _ hR (xorHalf_lt _ _ _ hL (HFbytes _ _ _ _))

theorem feistelHalves_length (pbkdf2F : List Nat → List Nat → Nat → Nat → List Nat)
    (rounds : List Nat) (passphrase : List Nat) (iterationExponent : Nat)
    (salt : List Nat) (data : List Nat) (heven : data.length % 2 = 0) :
    (feistelHalves pbkdf2F rounds passphrase iterationExponent salt data).length =
      data.length := by
  have hL : (data.take (data.length / 2)).length = data.length / 2 := by
    rw [List.length_take]; omega
  have hR : (data.drop (data.length / 2)).length = data.length / 2 := by
    rw [List.length_drop]; omega
  have hplen := feistelRounds_lengths pbkdf2F rounds passphrase
    iterationExponent salt (data.length / 2) (data.take (data.length / 2))
    (data.drop (data.length / 2)) hL hR
  rw [feistelHalves, List.length_append, hplen.1, hplen.2]
  omega

/-- The 4-round Feistel cipher decrypts its own encryption, for any PBKDF2
function: decryption runs the same rounds in reverse order on the swapped
halves. -/
theorem feistel_decrypt_encrypt (pbkdf2F : List Nat → List Nat → Nat → Nat → List Nat)
    (data passphrase : List Nat) (iterationExponent identifier : Nat) (extendable : Bool)
    (heven : data.length % 2 = 0) :
    ∃ enc, feistelCipherEncrypt pbkdf2F data passphrase iterationExponent identifier extendable =
        Except.ok enc ∧
      feistelCipherDecrypt pbkdf2F enc passphrase iterationExponent identifier extendable =
        Except.ok data ∧
      enc.length = data.length := by
  have hL : (data.take (data.length / 2)).length = data.length / 2 := by
    rw [List.length_take]; omega
  have hR : (data.drop (data.length / 2)).length = data.length / 2 := by
    rw [List.length_drop]; omega
  set salt := buildSalt identifier extendable with hsalt
  set enc := feistelHalves pbkdf2F (List.range ROUND_COUNT) passphrase iterationExponent salt data
    with henc
  have henclen : enc.length = data.length :=
    feistelHalves_length pbkdf2F _ passphrase iterationExponent salt data heven
  have hplen := feistelRounds_lengths pbkdf2F (List.range ROUND_COUNT) passphrase
    iterationExponent salt (data.length / 2) (data.take (data.length / 2))
    (data.drop (data.length / 2)) hL hR
  refine ⟨enc, ?_, ?_, henclen⟩
  · rw [feistelCipherEncrypt, if_neg (by omega)]
  · rw [feistelCipherDecrypt, if_neg (by rw [henclen]; omega)]
    rw [feistelHalves, henclen]
    have htake : enc.take (data.length / 2) =
        (feistelRounds pbkdf2F (List.range ROUND_COUNT) passphrase iterationExponent salt
          (data.length / 2) (data.take (data.length / 2)) (data.drop (data.length / 2))).2 := by
      rw [henc, feistelHalves]
      exact List.take_left' hplen.2
    have hdrop : enc.drop (data.length / 2) =
        (feistelRounds pbkdf2F (List.range ROUND_COUNT) passphrase iterationExponent salt
          (data.length / 2) (data.take (data.length / 2)) (data.drop (data.length / 2))).1 := by
      rw [henc, feistelHalves]
      exact List.drop_left' hplen.2
    rw [htake, hdrop]
    rw [feistelRounds_reverse_inv pbkdf2F passphrase iterationExponent salt (data.length / 2)
      (List.range ROUND_COUNT) (data.take (data.length / 2)) (data.drop (data.length / 2)) hL hR]
    rw [List.take_append_drop]

theorem feistelCipherEncrypt_bytes (pbkdf2F : List Nat → List Nat → Nat → Nat → List Nat)
    (HFbytes : ∀ inp salt c n, ∀ b ∈ pbkdf2F inp salt c n, b < 256)
    (data passphrase : List Nat) (iterationExponent identifier : Nat) (extendable : Bool)
    (hdata : ∀ b ∈ data, b < 256) (enc : List Nat)
    (henc : feistelCipherEncrypt pbkdf2F data passphrase iterationExponent identifier extendable =
      Except.ok enc) :
    ∀ b ∈ enc, b < 256 := by
  rw [feistelCipherEncrypt] at henc
  split at henc
  · exact absurd henc (by simp)
  · injection henc with henc
    subst henc
    have hbytes := feistelRounds_bytes pbkdf2F HFbytes passphrase iterationExponent
      (buildSalt identifier extendable) (data.length / 2) (List.range ROUND_COUNT)
      (data.take (data.length / 2)) (data.drop (data.length / 2))
      (fun b hb => hdata b (List.mem_of_mem_take hb))
      (fun b hb => hdata b (List.mem_of_mem_drop hb))
    intro b hb
    rw [feistelHalves] at hb
    rcases List.mem_append.mp hb with h | h
    · exact hbytes.2 b h
    · exact hbytes.1 b h

/-! ### Share encode/decode round-trip -/

theorem encodeShare_length (m : ShareMetadata) (enc : List Nat) :
    (encodeShare m enc).length = 4 + (enc.length * 8 + 9) / 10 + 3 := by
  rw [encodeShare]
  simp only [List.length_map, List.length_append]
  rw [bigEndianDigits_length]
  simp [encodeMetadata, rs1024CreateChecksum]

theorem plain_metadata_encode (identifier : Nat) :
    encodeMetadata (plainShareMetadata identifier) =
      [(identifier >>> 5) &&& 1023, (identifier &&& 31) <<< 5, 0, 0] := by
  simp only [plainShareMetadata, encodeMetadata]
  norm_num [Nat.zero_and, Nat.zero_shiftLeft, Nat.zero_shiftRight, Nat.or_zero, Nat.zero_or]

theorem checksum_words_lt (cust : String) (data : List Nat) :
    ∀ d ∈ rs1024CreateChecksum cust data, d < 1024 := by
  intro d hd
  rw [rs1024CreateChecksum] at hd
  have h1024 : (1024 : Nat) = 2 ^ 10 := by norm_num
  simp only [List.mem_cons, List.not_mem_nil, or_false] at hd
  rcases hd with rfl | rfl | rfl <;> rw [h1024] <;>
    exact Nat.and_lt_two_pow _ (by norm_num)

/-- Decoding a share assembled from the plain metadata, the base-1024 digits
of a 16- or 32-byte encrypted secret, and ANY three trailing vocabulary
indices recovers the metadata and the bytes: `decodeShare` never looks at
the checksum words beyond mapping them through the word list. -/
theorem decodeShare_metadata_value (identifier : Nat) (hid : identifier < 32768)
    (enc : List Nat) (hben : ∀ b ∈ enc, b < 256)
    (hlen : enc.length = 16 ∨ enc.length = 32)
    (chk : List Nat) (hchklen : chk.length = 3) (hchklt : ∀ d ∈ chk, d < 1024) :
    decodeShare (((encodeMetadata (plainShareMetadata identifier) ++
        bigEndianDigits 1024 ((enc.length * 8 + 9) / 10) (bytesToInt enc)) ++ chk).map
        (fun idx => SLIP39_WORDLIST.getD idx "")) =
    Except.ok (plainShareMetadata identifier, enc) := by
  rw [plain_metadata_encode]
  set n := enc.length with hn
  set tw := (n * 8 + 9) / 10 with htw
  have htw' : tw = 13 ∨ tw = 26 := by
    rcases hlen with h | h <;> rw [htw, h] <;> norm_num
  set e0 := (identifier >>> 5) &&& 1023 with he0
  set e1 := (identifier &&& 31) <<< 5 with he1
  set sw := bigEndianDigits 1024 tw (bytesToInt enc) with hsw
  have hswlen : sw.length = tw := bigEndianDigits_length 1024 tw _
  have hswlt : ∀ d ∈ sw, d < 1024 := fun d hd => bigEndianDigits_lt 1024 (by norm_num) tw _ d hd
  have he0lt : e0 < 1024 := by
    rw [he0, show (1024 : Nat) = 2 ^ 10 by norm_num]
    exact Nat.and_lt_two_pow _ (by norm_num)
  have he1lt : e1 < 1024 := by
    rw [he1, Nat.shiftLeft_eq]
    have : identifier &&& 31 < 32 := by
      rw [show (32 : Nat) = 2 ^ 5 by norm_num]
      exact Nat.and_lt_two_pow _ (by norm_num)
    omega
  set full := ([e0, e1, 0, 0] ++ sw) ++ chk with hfull
  have hflt : ∀ d ∈ full, d < 1024 := by
    intro d hd
    rw [hfull] at hd
    rcases List.mem_append.mp hd with h | h
    · rcases List.mem_append.mp h with h | h
      · simp only [List.mem_cons, List.not_mem_nil, or_false] at h
        rcases h with rfl | rfl | rfl | rfl
        · exact he0lt
        · exact he1lt
        · norm_num
        · norm_num
      · exact hswlt d h
    · exact hchklt d h
  have hflen : full.length = 4 + tw + 3 := by
    rw [hfull, List.length_append, List.length_append, hswlen, hchklen]; rfl
  rw [decodeShare]
  rw [wordIndicesOf_map_getD full hflt]
  dsimp only
  have hguard : ¬ (full.length ≠ 20 ∧ full.length ≠ 33) := by
    rw [hflen]; rcases htw' with h | h <;> rw [h] <;> norm_num
  rw [if_neg hguard]
  have hcons : full = e0 :: e1 :: 0 :: 0 :: (sw ++ chk) := by
    rw [hfull]; simp
  have hdec : decodeMetadata full = plainShareMetadata identifier := by
    rw [hcons, decodeMetadata, plainShareMetadata]
    simp only [List.getD_cons_zero, List.getD_cons_succ]
    have hident : ((e0 <<< 5) ||| ((e1 >>> 5) &&& 31)) &&& 32767 = identifier := by
      rw [he0, he1]; exact identifier_roundtrip identifier hid
    have hext : ((e1 >>> 4) &&& 1) = 0 := by
      rw [he1]; exact shifted_low_bit_zero identifier 4 (by norm_num)
    have hie : e1 &&& 15 = 0 := by
      rw [he1]; exact shifted_low_mask_zero identifier
    rw [hident, hext, hie]
    norm_num
  rw [hdec]
  have hval : (full.drop 4).take (full.length - 7) = sw := by
    have h4 : full.drop 4 = sw ++ chk := by rw [hcons]; rfl
    have h7 : full.length - 7 = tw := by rw [hflen]; omega
    rw [h4, h7, ← hswlen]
    exact List.take_left sw chk
  rw [hval, hswlen]
  have hbound : bytesToInt enc < 1024 ^ tw := by
    calc bytesToInt enc < 256 ^ n := by rw [hn]; exact bytesToInt_lt enc hben
      _ ≤ 1024 ^ tw := by
          rcases hlen with h | h <;> rw [h] at htw <;> rw [htw, h] <;> norm_num
  have hwti : wordsToInt sw = bytesToInt enc := by
    rw [hsw]; exact wordsToInt_bigEndianDigits tw _ hbound
  rw [hwti]
  have hdata : tw * 10 - tw * 10 % 16 = n * 8 := by
    rcases hlen with h | h <;> rw [h] at htw <;> rw [htw, h] <;> norm_num
  rw [hdata]
  have hnopad : ¬ (bytesToInt enc > 2 ^ (n * 8) - 1) := by
    have h1 : bytesToInt enc < 256 ^ n := by rw [hn]; exact bytesToInt_lt enc hben
    have h2 : (256 : Nat) ^ n = 2 ^ (n * 8) := by
      rw [show (256 : Nat) = 2 ^ 8 by norm_num, ← pow_mul, Nat.mul_comm]
    omega
  rw [if_neg hnopad]
  have hbytes : bigEndianDigits 256 (n * 8 / 8) (bytesToInt enc) = enc := by
    have : n * 8 / 8 = n := by omega
    rw [this, hn]
    exact bigEndianDigits_bytesToInt enc hben
  rw [hbytes]

theorem decodeShare_encodeShare (identifier : Nat) (hid : identifier < 32768)
    (enc : List Nat) (hben : ∀ b ∈ enc, b < 256)
    (hlen : enc.length = 16 ∨ enc.length = 32) :
    decodeShare (encodeShare (plainShareMetadata identifier) enc) =
    Except.ok (plainShareMetadata identifier, enc) := by
  have hcust : (if (plainShareMetadata identifier).extendable = true then "shamir_extendable"
      else "shamir") = "shamir" := rfl
  rw [encodeShare, hcust]
  exact decodeShare_metadata_value identifier hid enc hben hlen
    (rs1024CreateChecksum "shamir"
      (encodeMetadata (plainShareMetadata identifier) ++
        bigEndianDigits 1024 ((enc.length * 8 + 9) / 10) (bytesToInt enc)))
    rfl (checksum_words_lt _ _)

/-! ### C1, C3, C6 -/

/-- C1: for every master secret of exactly 16 or 32 bytes and every
identifier the generator can draw (15-bit), recovering from a freshly
generated mnemonic returns the original secret (iteration exponent 0,
extendable false, empty passphrase), for any PBKDF2 function producing
byte output. -/
theorem slip39_generate_recover_roundtrip
    (pbkdf2F : List Nat → List Nat → Nat → Nat → List Nat)
    (Hbytes : ∀ inp salt c n, ∀ b ∈ pbkdf2F inp salt c n, b < 256)
    (masterSecret : List Nat)
    (hsec : masterSecret.length = 16 ∨ masterSecret.length = 32)
    (hbytes : ∀ b ∈ masterSecret, b < 256)
    (identifier : Nat) (hid : identifier < 32768) :
    ∃ mn, generateMnemonic pbkdf2F identifier masterSecret = Except.ok mn ∧
      recoverMasterSecret pbkdf2F mn = Except.ok masterSecret := by
  have heven : masterSecret.length % 2 = 0 := by rcases hsec with h | h <;> rw [h]
  obtain ⟨enc, hEnc, hDec, hEncLen⟩ :=
    feistel_decrypt_encrypt pbkdf2F masterSecret [] 0 identifier false heven
  have hbenc : ∀ b ∈ enc, b < 256 :=
    feistelCipherEncrypt_bytes pbkdf2F Hbytes masterSecret [] 0 identifier false hbytes enc hEnc
  have henclen : enc.length = 16 ∨ enc.length = 32 := by rw [hEncLen]; exact hsec
  refine ⟨encodeShare (plainShareMetadata identifier) enc, ?_, ?_⟩
  · rw [generateMnemonic, if_neg (by rcases hsec with h | h <;> rw [h] <;> norm_num), hEnc]
    rfl
  · have hlen' : (encodeShare (plainShareMetadata identifier) enc).length = 20 ∨
        (encodeShare (plainShareMetadata identifier) enc).length = 33 := by
      rcases henclen with h | h
      · left; rw [encodeShare_length, h]
      · right; rw [encodeShare_length, h]
    rw [recoverMasterSecret, if_neg (by rcases hlen' with h | h <;> rw [h] <;> norm_num)]
    rw [decodeShare_encodeShare identifier hid enc hbenc henclen]
    dsimp only [plainShareMetadata]
    exact hDec

theorem slip39_generate_recover_roundtrip_witness :
    ∃ mn, generateMnemonic pbkdf2Zero 0 (List.replicate 16 0) = Except.ok mn ∧
      recoverMasterSecret pbkdf2Zero mn = Except.ok (List.replicate 16 0) :=
  slip39_generate_recover_roundtrip pbkdf2Zero
    (by
      intro inp salt c n b hb
      rw [pbkdf2Zero] at hb
      rw [List.eq_of_mem_replicate hb]
      norm_num)
    (List.replicate 16 0) (Or.inl (by simp))
    (by
      intro b hb
      rw [List.eq_of_mem_replicate hb]
      norm_num)
    0 (by norm_num)

set_option maxRecDepth 100000 in
/-- C3 counterexample: a mnemonic of valid length (20) whose words are all
vocabulary entries but whose 3-word checksum does NOT verify
(`validateMnemonic` rejects it) is nevertheless decrypted into a master
secret by `recoverMasterSecret` — the checksum is never verified during
recovery. -/
theorem recover_ignores_checksum_counterexample :
    validateMnemonic (List.replicate 20 "academic") = false ∧
    recoverMasterSecret pbkdf2Zero (List.replicate 20 "academic") =
      Except.ok (List.replicate 16 0) := by
  constructor
  · decide
  · rfl

/-- C3 (amended): `recoverMasterSecret` never consults the checksum words:
a share assembled from the plain metadata, the value words of an encrypted
secret, and ANY three vocabulary words in the checksum slot decrypts to the
original master secret.  (Checksum verification lives only in
`validateMnemonic`, which callers run separately before recovery.) -/
theorem recover_master_secret_ignores_checksum
    (pbkdf2F : List Nat → List Nat → Nat → Nat → List Nat)
    (Hbytes : ∀ inp salt c n, ∀ b ∈ pbkdf2F inp salt c n, b < 256)
    (masterSecret : List Nat)
    (hsec : masterSecret.length = 16 ∨ masterSecret.length = 32)
    (hbytes : ∀ b ∈ masterSecret, b < 256)
    (identifier : Nat) (hid : identifier < 32768)
    (chk : List Nat) (hchklen : chk.length = 3) (hchklt : ∀ d ∈ chk, d < 1024) :
    ∃ enc, feistelCipherEncrypt pbkdf2F masterSecret [] 0 identifier false = Except.ok enc ∧
      recoverMasterSecret pbkdf2F
        (((encodeMetadata (plainShareMetadata identifier) ++
          bigEndianDigits 1024 ((masterSecret.length * 8 + 9) / 10) (bytesToInt enc)) ++ chk).map
          (fun idx => SLIP39_WORDLIST.getD idx "")) = Except.ok masterSecret := by
  have heven : masterSecret.length % 2 = 0 := by rcases hsec with h | h <;> rw [h]
  obtain ⟨enc, hEnc, hDec, hEncLen⟩ :=
    feistel_decrypt_encrypt pbkdf2F masterSecret [] 0 identifier false heven
  have hbenc : ∀ b ∈ enc, b < 256 :=
    feistelCipherEncrypt_bytes pbkdf2F Hbytes masterSecret [] 0 identifier false hbytes enc hEnc
  have henclen : enc.length = 16 ∨ enc.length = 32 := by rw [hEncLen]; exact hsec
  refine ⟨enc, hEnc, ?_⟩
  rw [← hEncLen]
  have hmnlen : (((encodeMetadata (plainShareMetadata identifier) ++
      bigEndianDigits 1024 ((enc.length * 8 + 9) / 10) (bytesToInt enc)) ++ chk).map
      (fun idx => SLIP39_WORDLIST.getD idx "")).length = 4 + (enc.length * 8 + 9) / 10 + 3 := by
    rw [List.length_map, List.length_append, List.length_append, plain_metadata_encode,
      bigEndianDigits_length, hchklen]
    rfl
  have hguard : ¬ ((((encodeMetadata (plainShareMetadata identifier) ++
      bigEndianDigits 1024 ((enc.length * 8 + 9) / 10) (bytesToInt enc)) ++ chk).map
      (fun idx => SLIP39_WORDLIST.getD idx "")).length ≠ 20 ∧
      (((encodeMetadata (plainShareMetadata identifier) ++
      bigEndianDigits 1024 ((enc.length * 8 + 9) / 10) (bytesToInt enc)) ++ chk).map
      (fun idx => SLIP39_WORDLIST.getD idx "")).length ≠ 33) := by
    rw [hmnlen]
    rcases henclen with h | h <;> rw [h] <;> norm_num
  rw [recoverMasterSecret, if_neg hguard]
  rw [decodeShare_metadata_value identifier hid enc hbenc henclen chk hchklen hchklt]
  dsimp only [plainShareMetadata]
  exact hDec

theorem recover_master_secret_ignores_checksum_witness :
    ∃ enc, feistelCipherEncrypt pbkdf2Zero (List.replicate 16 0) [] 0 0 false = Except.ok enc ∧
      recoverMasterSecret pbkdf2Zero
        (((encodeMetadata (plainShareMetadata 0) ++
          bigEndianDigits 1024 (((List.replicate 16 (0 : Nat)).length * 8 + 9) / 10)
            (bytesToInt enc)) ++ [5, 6, 7]).map
          (fun idx => SLIP39_WORDLIST.getD idx "")) = Except.ok (List.replicate 16 0) :=
  recover_master_secret_ignores_checksum pbkdf2Zero
    (by
      intro inp salt c n b hb
      rw [pbkdf2Zero] at hb
      rw [List.eq_of_mem_replicate hb]
      norm_num)
    (List.replicate 16 0) (Or.inl (by simp))
    (by
      intro b hb
      rw [List.eq_of_mem_replicate hb]
      norm_num)
    0 (by norm_num)
    [5, 6, 7] rfl (by decide)

set_option maxRecDepth 100000 in
/-- C6 counterexample: a 20-word vocabulary mnemonic whose reassembled
base-1024 value is 1 — so the LOW `totalValueBits % 16 = 2` padding bits
are nonzero — is NOT rejected with `Invalid mnemonic padding`: `decodeShare`
succeeds and returns 16 bytes ending in 1.  The code's guard tests the HIGH
bits (`valueInt > 2^dataBits - 1`), not the low padding bits the claim
describes. -/
theorem decode_low_padding_bits_counterexample :
    wordsToInt ((((List.replicate 16 0 ++ 1 :: List.replicate 3 0)).drop 4).take 13) % 2 ^ 2 ≠ 0 ∧
    decodeShare (List.replicate 16 "academic" ++ "acid" :: List.replicate 3 "academic") =
      Except.ok (plainShareMetadata 0, List.replicate 15 0 ++ [1]) := by
  constructor
  · decide
  · rfl

/-- C6 (amended): for every word list of valid length (20 or 33) whose words
map into the vocabulary, `decodeShare` fails with `Invalid mnemonic padding`
exactly when the reassembled base-1024 integer exceeds
`2 ^ dataBits - 1` with `dataBits = totalValueBits - totalValueBits % 16`
(i.e. when the HIGH bits beyond `dataBits` are nonzero, not when the low
`totalValueBits % 16` padding bits are nonzero); on success it returns
`dataBits / 8` bytes. -/
theorem decode_share_padding_guard (words : List String) (is : List Nat)
    (his : wordIndicesOf words = some is)
    (hlen : is.length = 20 ∨ is.length = 33) :
    (decodeShare words = Except.error "Invalid mnemonic padding" ↔
      2 ^ ((is.length - 7) * 10 - ((is.length - 7) * 10) % 16) ≤
        wordsToInt ((is.drop 4).take (is.length - 7))) ∧
    ∀ md bytes, decodeShare words = Except.ok (md, bytes) →
      bytes.length = ((is.length - 7) * 10 - ((is.length - 7) * 10) % 16) / 8 := by
  have hg : ¬ (is.length ≠ 20 ∧ is.length ≠ 33) := by
    rcases hlen with h | h <;> rw [h] <;> norm_num
  have hvw : ((is.drop 4).take (is.length - 7)).length = is.length - 7 := by
    rw [List.length_take, List.length_drop]
    rcases hlen with h | h <;> rw [h] <;> norm_num
  rw [decodeShare, his]
  dsimp only
  rw [if_neg hg, hvw]
  have hpow : 1 ≤ 2 ^ ((is.length - 7) * 10 - ((is.length - 7) * 10) % 16) :=
    Nat.one_le_two_pow
  by_cases hpad : wordsToInt ((is.drop 4).take (is.length - 7)) >
      2 ^ ((is.length - 7) * 10 - ((is.length - 7) * 10) % 16) - 1
  · rw [if_pos hpad]
    refine ⟨iff_of_true rfl (by omega), ?_⟩
    intro md bytes h
    exact absurd h (by simp)
  · rw [if_neg hpad]
    refine ⟨iff_of_false (by simp) (by omega), ?_⟩
    intro md bytes h
    simp only [Except.ok.injEq, Prod.mk.injEq] at h
    rw [← h.2, bigEndianDigits_length]

set_option maxRecDepth 100000 in
theorem decode_share_padding_guard_witness :
    (decodeShare (List.replicate 20 "academic") = Except.error "Invalid mnemonic padding" ↔
      2 ^ (((List.replicate 20 (0 : Nat)).length - 7) * 10 -
          (((List.replicate 20 (0 : Nat)).length - 7) * 10) % 16) ≤
        wordsToInt (((List.replicate 20 (0 : Nat)).drop 4).take
          ((List.replicate 20 (0 : Nat)).length - 7))) ∧
    ∀ md bytes, decodeShare (List.replicate 20 "academic") = Except.ok (md, bytes) →
      bytes.length = (((List.replicate 20 (0 : Nat)).length - 7) * 10 -
        (((List.replicate 20 (0 : Nat)).length - 7) * 10) % 16) / 8 :=
  decode_share_padding_guard (List.replicate 20 "academic") (List.replicate 20 0)
    (by rfl) (Or.inl (by simp))

end Inheritance
